import Mathlib

/-!
Verification of the `company_intel_scraper` repository
(`src/scraper.py` and `src/company_intel.py`).

The Python sources are shallowly embedded below: pure string processing is
translated to executable functions on `String` / `List Char`; the network,
HTML parsing, the LLM call, the PDF converter and the filesystem cache are
modelled by explicit parameters (oracles) and explicit state values; Python
exceptions become `Except String` values caught exactly where the source
catches them; call-counting claims are settled by threading an explicit
trace of the side-effecting calls through the embedded control flow.
-/

namespace CompanyIntel

/- ======================================================================
   Section 1: generic helpers (Python `in` on strings, order-preserving
   dedup as in `scraper.fetch_website_links`).
   ====================================================================== -/

/-- Python's substring test `pat in s`, on character lists.
`containsSubL pat s = true` iff `pat` occurs contiguously in `s`. -/
def containsSubL (pat : List Char) : List Char → Bool
  | [] => pat.isEmpty
  | c :: rest => pat.isPrefixOf (c :: rest) || containsSubL pat rest

/-- Python's substring test `pat in s` on `String`. -/
def containsSubStr (pat s : String) : Bool :=
  containsSubL pat.data s.data

/-- Python `str.lower()` (character-wise, as for the ASCII URLs the
filter handles). -/
def pyLower (s : String) : String := ⟨s.data.map Char.toLower⟩

/-- Python `str.upper()`. -/
def pyUpper (s : String) : String := ⟨s.data.map Char.toUpper⟩

/-- Python `str.startswith(pre)`. -/
def pyStartsWith (s pre : String) : Bool := pre.data.isPrefixOf s.data


/-- The `seen`-set deduplication loop of `fetch_website_links`
(src/scraper.py lines 104-110): keep the first occurrence of every
element, preserving first-seen order. -/
def dedupFirstGo (seen : List String) : List String → List String
  | [] => []
  | x :: xs =>
    if x ∈ seen then dedupFirstGo seen xs
    else x :: dedupFirstGo (x :: seen) xs

theorem mem_dedupFirstGo {seen : List String} {l : List String} {x : String}
    (h : x ∈ dedupFirstGo seen l) : x ∈ l ∧ x ∉ seen := by
  induction l generalizing seen with
  | nil => simp [dedupFirstGo] at h
  | cons a as ih =>
    simp only [dedupFirstGo] at h
    by_cases ha : a ∈ seen
    · simp [ha] at h
      rcases ih h with ⟨h1, h2⟩
      exact ⟨List.mem_cons_of_mem _ h1, h2⟩
    · simp [ha] at h
      rcases h with h | h
      · exact ⟨by simp [h], by simpa [h] using ha⟩
      · rcases ih h with ⟨h1, h2⟩
        simp at h2
        exact ⟨List.mem_cons_of_mem _ h1, h2.2⟩

theorem dedupFirstGo_nodup (seen : List String) (l : List String) :
    (dedupFirstGo seen l).Nodup := by
  induction l generalizing seen with
  | nil => simp [dedupFirstGo]
  | cons a as ih =>
    simp only [dedupFirstGo]
    by_cases ha : a ∈ seen
    · simpa [ha] using ih seen
    · simp only [ha, if_false]
      refine List.nodup_cons.2 ⟨?_, ih (a :: seen)⟩
      intro hmem
      have := (mem_dedupFirstGo hmem).2
      simp at this

theorem mem_dedupFirstGo_of_mem {seen : List String} {l : List String} {x : String}
    (hx : x ∈ l) (hs : x ∉ seen) : x ∈ dedupFirstGo seen l := by
  induction l generalizing seen with
  | nil => simp at hx
  | cons a as ih =>
    simp only [dedupFirstGo]
    rcases List.mem_cons.1 hx with rfl | hx'
    · simp [hs]
    · by_cases ha : a ∈ seen
      · simp only [ha, if_true]
        exact ih hx' hs
      · simp only [ha, if_false]
        by_cases hxa : x = a
        · simp [hxa]
        · exact List.mem_cons_of_mem _ (ih hx' (by simp [hs, hxa]))

theorem dedupFirstGo_sublist (seen : List String) (l : List String) :
    (dedupFirstGo seen l).Sublist l := by
  induction l generalizing seen with
  | nil => simp [dedupFirstGo]
  | cons a as ih =>
    simp only [dedupFirstGo]
    by_cases ha : a ∈ seen
    · simp only [ha, if_true]
      exact (ih seen).cons a
    · simp only [ha, if_false]
      exact (ih (a :: seen)).cons₂ a

/-- Elements of the deduplicated list are ordered by their first occurrence
in the input list. -/
theorem dedupFirstGo_pairwise_indexOf (seen : List String) (l : List String) :
    (dedupFirstGo seen l).Pairwise (fun a b => l.indexOf a < l.indexOf b) := by
  induction l generalizing seen with
  | nil => simp [dedupFirstGo]
  | cons a as ih =>
    simp only [dedupFirstGo]
    by_cases ha : a ∈ seen
    · simp only [ha, if_true]
      refine (ih seen).imp_of_mem ?_
      intro x y hx hy hlt
      have hxas := mem_dedupFirstGo hx
      have hyas := mem_dedupFirstGo hy
      have hxa : x ≠ a := by rintro rfl; exact hxas.2 ha
      have hya : y ≠ a := by rintro rfl; exact hyas.2 ha
      rw [List.indexOf_cons_ne _ (Ne.symm hxa), List.indexOf_cons_ne _ (Ne.symm hya)]
      omega
    · simp only [ha, if_false]
      refine List.pairwise_cons.2 ⟨?_, ?_⟩
      · intro y hy
        have hyas := mem_dedupFirstGo hy
        have hya : y ≠ a := by
          rintro rfl
          exact hyas.2 (List.mem_cons_self _ _)
        rw [List.indexOf_cons_self, List.indexOf_cons_ne _ (Ne.symm hya)]
        omega
      · refine (ih (a :: seen)).imp_of_mem ?_
        intro x y hx hy hlt
        have hxas := mem_dedupFirstGo hx
        have hyas := mem_dedupFirstGo hy
        have hxa : x ≠ a := by
          rintro rfl; exact hxas.2 (List.mem_cons_self _ _)
        have hya : y ≠ a := by
          rintro rfl; exact hyas.2 (List.mem_cons_self _ _)
        rw [List.indexOf_cons_ne _ (Ne.symm hxa), List.indexOf_cons_ne _ (Ne.symm hya)]
        omega


/- ======================================================================
   Section 2: embedding of src/scraper.py.

   The HTTP GET and the BeautifulSoup parse are not pure code; they are
   modelled by an `HttpOutcome` oracle: `.ok payload` is a successful
   fetch+parse (for `fetch_website_contents` the payload is the text that
   `soup.get_text(separator=' ', strip=True)` produced, for
   `fetch_website_links` the list of already-joined absolute URLs of the
   page's anchors), and the three failure constructors correspond to the
   three `except` arms of the source.
   ====================================================================== -/

/-- src/scraper.py line 16. -/
def MAX_CONTENT_LENGTH : Nat := 50000

/-- The truncation marker appended at src/scraper.py line 55. -/
def TRUNC_MARKER : String := "... [content truncated]"

/-- Python `str.isspace` characters relevant to `str.strip()`
(space, tab, newline, carriage return, vertical tab, form feed). -/
def pyIsSpace (c : Char) : Bool :=
  c = ' ' || c = '\t' || c = '\n' || c = '\x0d' || c = '\x0b' || c = '\x0c'

/-- Characters at which Python `str.splitlines()` breaks a line
(the common ASCII line boundaries; `\x1c`-`\x1e`, `\x85` and the Unicode
line/paragraph separators are included for fidelity). -/
def isLineBreak (c : Char) : Bool :=
  c = '\n' || c = '\x0d' || c = '\x0b' || c = '\x0c' ||
  c = '\x1c' || c = '\x1d' || c = '\x1e' || c = '\x85' ||
  c = '\u2028' || c = '\u2029'

/-- Python `str.strip()` on a character list: drop leading and trailing
whitespace. -/
def stripL (l : List Char) : List Char :=
  ((l.dropWhile pyIsSpace).reverse.dropWhile pyIsSpace).reverse

/-- Split a character list at every character satisfying `p` (separator
characters are dropped).  Because every produced chunk is subsequently
`strip`ped and empty chunks are filtered out, this models
`str.splitlines()` faithfully: Python's treatment of `\x0d\n` as a single
boundary only differs by an extra empty chunk. -/
def splitOnChar (p : Char → Bool) : List Char → List (List Char)
  | [] => [[]]
  | c :: rest =>
    if p c then [] :: splitOnChar p rest
    else
      match splitOnChar p rest with
      | [] => [[c]]
      | h :: t => (c :: h) :: t

/-- Python `line.split("  ")`: split at non-overlapping occurrences of two
consecutive spaces, scanning left to right. -/
def splitTwoSpace : List Char → List (List Char)
  | [] => [[]]
  | ' ' :: ' ' :: rest => [] :: splitTwoSpace rest
  | c :: rest =>
    match splitTwoSpace rest with
    | [] => [[c]]
    | h :: t => (c :: h) :: t

/-- Python `' '.join(chunks)`. -/
def joinSp : List (List Char) → List Char
  | [] => []
  | [x] => x
  | x :: y :: rest => x ++ ' ' :: joinSp (y :: rest)

/-- The whitespace cleanup of `fetch_website_contents`
(src/scraper.py lines 48-51):
`lines = (line.strip() for line in text.splitlines())`,
`chunks = (phrase.strip() for line in lines for phrase in line.split("  "))`,
`text = ' '.join(chunk for chunk in chunks if chunk)`. -/
def cleanupTextL (text : List Char) : List Char :=
  let lines := (splitOnChar isLineBreak text).map stripL
  let chunks := lines.flatMap fun line => (splitTwoSpace line).map stripL
  joinSp (chunks.filter fun ch => ch ≠ [])

/-- The truncation step of `fetch_website_contents`
(src/scraper.py lines 53-55). -/
def truncateL (text : List Char) : List Char :=
  if MAX_CONTENT_LENGTH < text.length then
    text.take MAX_CONTENT_LENGTH ++ TRUNC_MARKER.data
  else text

/-- Whitespace cleanup followed by truncation, on `String`. -/
def cleanAndTruncate (text : String) : String :=
  ⟨truncateL (cleanupTextL text.data)⟩

/-- Outcome of one HTTP GET plus parse, as seen by the `try` block of the
source: success carries the parsed payload, the other constructors are the
three exception classes distinguished by the source's `except` arms. -/
inductive HttpOutcome (α : Type) where
  | ok (payload : α)
  | timeout
  | requestErr (msg : String)
  | parseErr (msg : String)

/-- src/scraper.py lines 19-64, `fetch_website_contents`: on success the
extracted text is whitespace-cleaned and truncated; each failure is
re-raised as an `Exception` with the message built at lines 59-64. -/
def fetch_website_contents (url : String) (outcome : HttpOutcome String) :
    Except String String :=
  match outcome with
  | .ok text => .ok (cleanAndTruncate text)
  | .timeout => .error ("Timeout fetching " ++ url)
  | .requestErr m => .error ("Error fetching " ++ url ++ ": " ++ m)
  | .parseErr m => .error ("Error parsing " ++ url ++ ": " ++ m)

/-- The result of Python `urlparse`: the two components the source
inspects.  `urlparse` itself is an opaque parameter of the embedding. -/
structure UrlParts where
  scheme : String
  netloc : String
deriving DecidableEq, Repr

/-- The link collection loop of `fetch_website_links`
(src/scraper.py lines 89-112): join every href against the page URL, keep
http/https links on the seed page's host, then deduplicate preserving
first-seen order.  `parse` models `urlparse` and `ujoin` models `urljoin`. -/
def sameHostLinks (parse : String → UrlParts) (ujoin : String → String → String)
    (url : String) (hrefs : List String) : List String :=
  (hrefs.map fun h => ujoin url h).filter fun u =>
    ((parse u).scheme == "http" || (parse u).scheme == "https") &&
      (parse u).netloc == (parse url).netloc

def collectLinks (parse : String → UrlParts) (ujoin : String → String → String)
    (url : String) (hrefs : List String) : List String :=
  dedupFirstGo [] (sameHostLinks parse ujoin url hrefs)

/-- src/scraper.py lines 67-119, `fetch_website_links`. -/
def fetch_website_links (parse : String → UrlParts)
    (ujoin : String → String → String) (url : String)
    (outcome : HttpOutcome (List String)) : Except String (List String) :=
  match outcome with
  | .ok hrefs => .ok (collectLinks parse ujoin url hrefs)
  | .timeout => .error ("Timeout fetching links from " ++ url)
  | .requestErr m => .error ("Error fetching links from " ++ url ++ ": " ++ m)
  | .parseErr m => .error ("Error parsing links from " ++ url ++ ": " ++ m)

/-- The retry loop of `fetch_with_retry` (src/scraper.py lines 122-144),
`for attempt in range(max_retries)` starting at `attempt`.  The fetcher
oracle gives the outcome of the i-th call of `fetch_website_contents`.
The result records `(outcome, number of fetch calls, sleeps performed)`;
each sleep of `backoff ** attempt` seconds (line 140) is logged. -/
def fetchWithRetryGo (fetcher : Nat → Except String String) (url : String)
    (maxRetries : Nat) (backoff : ℚ) (attempt : Nat) :
    Except String String × Nat × List ℚ :=
  if _h : attempt < maxRetries then
    match fetcher attempt with
    | .ok s => (.ok s, 1, [])
    | .error e =>
      if attempt = maxRetries - 1 then (.error e, 1, [])
      else
        let r := fetchWithRetryGo fetcher url maxRetries backoff (attempt + 1)
        (r.1, r.2.1 + 1, backoff ^ attempt :: r.2.2)
  else
    (.error ("Failed to fetch " ++ url ++ " after " ++ toString maxRetries ++
      " attempts"), 0, [])
termination_by maxRetries - attempt
decreasing_by omega

/-- src/scraper.py lines 122-144, `fetch_with_retry`. -/
def fetch_with_retry (fetcher : Nat → Except String String) (url : String)
    (maxRetries : Nat := 3) (backoff : ℚ := 2) :
    Except String String × Nat × List ℚ :=
  fetchWithRetryGo fetcher url maxRetries backoff 0



/- ======================================================================
   Section 2a: lemmas about the retry loop (claim C5).
   ====================================================================== -/

theorem fetchWithRetryGo_calls_pos (fetcher : Nat → Except String String)
    (url : String) (maxRetries : Nat) (backoff : ℚ) (attempt : Nat)
    (h : attempt < maxRetries) :
    1 ≤ (fetchWithRetryGo fetcher url maxRetries backoff attempt).2.1 := by
  rw [fetchWithRetryGo]
  simp only [h, dif_pos]
  cases fetcher attempt with
  | ok s => simp
  | error e =>
    by_cases hl : attempt = maxRetries - 1 <;> simp [hl]

theorem fetchWithRetryGo_calls_le (fetcher : Nat → Except String String)
    (url : String) (maxRetries : Nat) (backoff : ℚ) :
    ∀ k attempt, maxRetries - attempt ≤ k →
      (fetchWithRetryGo fetcher url maxRetries backoff attempt).2.1 ≤
        maxRetries - attempt := by
  intro k
  induction k with
  | zero =>
    intro attempt hk
    have h : ¬ attempt < maxRetries := by omega
    rw [fetchWithRetryGo]
    simp [h]
  | succ k ih =>
    intro attempt hk
    by_cases h : attempt < maxRetries
    · rw [fetchWithRetryGo]
      simp only [h, dif_pos]
      cases fetcher attempt with
      | ok s => simp; omega
      | error e =>
        by_cases hl : attempt = maxRetries - 1
        · simp [hl]; omega
        · simp only [hl, if_false]
          have := ih (attempt + 1) (by omega)
          show (fetchWithRetryGo fetcher url maxRetries backoff (attempt + 1)).2.1 + 1 ≤
            maxRetries - attempt
          omega
    · rw [fetchWithRetryGo]
      simp [h]

theorem fetchWithRetryGo_sleeps (fetcher : Nat → Except String String)
    (url : String) (maxRetries : Nat) (backoff : ℚ) :
    ∀ k attempt, maxRetries - attempt ≤ k →
      (fetchWithRetryGo fetcher url maxRetries backoff attempt).2.2 =
        (List.range' attempt
          ((fetchWithRetryGo fetcher url maxRetries backoff attempt).2.1 - 1)).map
          (fun i => backoff ^ i) := by
  intro k
  induction k with
  | zero =>
    intro attempt hk
    have h : ¬ attempt < maxRetries := by omega
    rw [fetchWithRetryGo]
    simp [h]
  | succ k ih =>
    intro attempt hk
    by_cases h : attempt < maxRetries
    · rw [fetchWithRetryGo]
      simp only [h, dif_pos]
      cases fetcher attempt with
      | ok s => simp
      | error e =>
        by_cases hl : attempt = maxRetries - 1
        · simp [hl]
        · simp only [hl, if_false]
          have hpos := fetchWithRetryGo_calls_pos fetcher url maxRetries backoff
            (attempt + 1) (by omega)
          have hrec := ih (attempt + 1) (by omega)
          show backoff ^ attempt ::
              (fetchWithRetryGo fetcher url maxRetries backoff (attempt + 1)).2.2 =
            (List.range' attempt
              ((fetchWithRetryGo fetcher url maxRetries backoff (attempt + 1)).2.1 + 1 - 1)).map
              (fun i => backoff ^ i)
          have hn : (fetchWithRetryGo fetcher url maxRetries backoff (attempt + 1)).2.1 + 1 - 1
              = ((fetchWithRetryGo fetcher url maxRetries backoff (attempt + 1)).2.1 - 1) + 1 := by
            omega
          rw [hn, List.range'_succ, List.map_cons, ← hrec]
    · rw [fetchWithRetryGo]
      simp [h]

theorem fetchWithRetryGo_final_error (fetcher : Nat → Except String String)
    (url : String) (maxRetries : Nat) (backoff : ℚ)
    (hall : ∀ i, i < maxRetries → ∃ e, fetcher i = Except.error e) :
    ∀ k attempt, maxRetries - attempt ≤ k → attempt < maxRetries →
      (fetchWithRetryGo fetcher url maxRetries backoff attempt).1 =
        fetcher (maxRetries - 1) := by
  intro k
  induction k with
  | zero => intro attempt hk h; omega
  | succ k ih =>
    intro attempt hk h
    obtain ⟨e, he⟩ := hall attempt h
    rw [fetchWithRetryGo]
    simp only [h, dif_pos, he]
    by_cases hl : attempt = maxRetries - 1
    · simp [hl]
      rw [← hl, he]
    · simp only [hl, if_false]
      exact ih (attempt + 1) (by omega) (by omega)



/- ======================================================================
   Section 2b: lemmas about the whitespace cleanup (claim C7).
   ====================================================================== -/

/-- "No two adjacent spaces" relation used to state the collapse property. -/
def nonSS (a b : Char) : Prop := ¬(a = ' ' ∧ b = ' ')

theorem nonSS_symm {a b : Char} (h : nonSS a b) : nonSS b a := by
  intro ⟨h1, h2⟩; exact h ⟨h2, h1⟩

instance (a b : Char) : Decidable (nonSS a b) :=
  inferInstanceAs (Decidable (¬(a = ' ' ∧ b = ' ')))

theorem splitOnChar_ne_nil (p : Char → Bool) (l : List Char) :
    splitOnChar p l ≠ [] := by
  cases l with
  | nil => simp [splitOnChar]
  | cons c rest =>
    rw [splitOnChar]
    by_cases hp : p c
    · simp [hp]
    · simp only [hp, if_false]
      cases splitOnChar p rest <;> simp

theorem mem_splitOnChar (p : Char → Bool) :
    ∀ l line, line ∈ splitOnChar p l → ∀ c ∈ line, p c = false := by
  intro l
  induction l with
  | nil =>
    intro line hline c hc
    simp [splitOnChar] at hline
    subst hline
    simp at hc
  | cons a rest ih =>
    intro line hline c hc
    rw [splitOnChar] at hline
    by_cases hp : p a
    · simp only [hp, if_true, List.mem_cons] at hline
      rcases hline with rfl | hline
      · simp at hc
      · exact ih line hline c hc
    · simp only [hp, if_false] at hline
      cases hrec : splitOnChar p rest with
      | nil => exact absurd hrec (splitOnChar_ne_nil p rest)
      | cons h t =>
        rw [hrec] at hline
        rcases List.mem_cons.1 hline with rfl | hline'
        · rcases List.mem_cons.1 hc with rfl | hc'
          · simpa using hp
          · exact ih h (by rw [hrec]; exact List.mem_cons_self _ _) c hc'
        · exact ih line (by rw [hrec]; exact List.mem_cons_of_mem _ hline') c hc

theorem splitTwoSpace_ne_nil (l : List Char) : splitTwoSpace l ≠ [] := by
  induction l using splitTwoSpace.induct with
  | case1 => simp [splitTwoSpace]
  | case2 rest ih => simp [splitTwoSpace]
  | case3 c rest hg hnil ih =>
    rw [splitTwoSpace.eq_3 c rest hg, hnil]
    simp
  | case4 c rest hg h t hrec ih =>
    rw [splitTwoSpace.eq_3 c rest hg, hrec]
    simp

theorem mem_splitTwoSpace_subset :
    ∀ l, ∀ ch ∈ splitTwoSpace l, ∀ c ∈ ch, c ∈ l := by
  intro l
  induction l using splitTwoSpace.induct with
  | case1 =>
    intro ch hch c hc
    simp [splitTwoSpace] at hch
    subst hch; simp at hc
  | case2 rest ih =>
    intro ch hch c hc
    rw [splitTwoSpace] at hch
    rcases List.mem_cons.1 hch with rfl | hch'
    · simp at hc
    · have := ih ch hch' c hc
      simp [this]
  | case3 c0 rest hg hnil ih => exact absurd hnil (splitTwoSpace_ne_nil rest)
  | case4 c0 rest hg h t hrec ih =>
    intro ch hch c hc
    rw [splitTwoSpace.eq_3 c0 rest hg, hrec] at hch
    rcases List.mem_cons.1 hch with rfl | hch'
    · rcases List.mem_cons.1 hc with rfl | hc'
      · exact List.mem_cons_self _ _
      · exact List.mem_cons_of_mem _
          (ih h (by rw [hrec]; exact List.mem_cons_self _ _) c hc')
    · exact List.mem_cons_of_mem _
          (ih ch (by rw [hrec]; exact List.mem_cons_of_mem _ hch') c hc)

/-- The chunks produced by `split("  ")` contain no two adjacent spaces,
and the first chunk (when nonempty) starts with the input's first
character. -/
theorem splitTwoSpace_spec :
    ∀ l, (∀ ch ∈ splitTwoSpace l, List.Chain' nonSS ch) ∧
      (∀ ch t, splitTwoSpace l = ch :: t → ch = [] ∨ ch.head? = l.head?) := by
  intro l
  induction l using splitTwoSpace.induct with
  | case1 =>
    constructor
    · intro ch hch
      simp [splitTwoSpace] at hch
      simp [hch]
    · intro ch t h
      simp [splitTwoSpace] at h
      simp [h.1]
  | case2 rest ih =>
    constructor
    · intro ch hch
      rw [splitTwoSpace] at hch
      rcases List.mem_cons.1 hch with rfl | hch'
      · simp
      · exact ih.1 ch hch'
    · intro ch t h
      rw [splitTwoSpace] at h
      simp only [List.cons.injEq] at h
      simp [← h.1]
  | case3 c0 rest hg hnil ih => exact absurd hnil (splitTwoSpace_ne_nil rest)
  | case4 c0 rest hg h t hrec ih =>
    constructor
    · intro ch hch
      rw [splitTwoSpace.eq_3 c0 rest hg, hrec] at hch
      rcases List.mem_cons.1 hch with rfl | hch'
      · have hchain : List.Chain' nonSS h :=
          ih.1 h (by rw [hrec]; exact List.mem_cons_self _ _)
        cases hh : h with
        | nil => simp
        | cons y h' =>
          rw [List.chain'_cons']
          refine ⟨?_, by rw [← hh]; exact hchain⟩
          intro z hz
          simp [hh] at hz
          subst hz
          have hhead := ih.2 h t hrec
          rcases hhead with rfl | hhead
          · simp at hh
          · rw [hh] at hhead
            simp only [List.head?_cons] at hhead
            intro ⟨hc0, hy⟩
            cases rest with
            | nil => simp at hhead
            | cons r0 rest' =>
              simp only [List.head?_cons, Option.some.injEq] at hhead
              exact hg rest' hc0 (by rw [← hhead, hy])
      · exact ih.1 ch (by rw [hrec]; exact List.mem_cons_of_mem _ hch')
    · intro ch t' hch
      rw [splitTwoSpace.eq_3 c0 rest hg, hrec] at hch
      simp only [List.cons.injEq] at hch
      right
      simp [← hch.1]


theorem dropWhile_head_not (p : Char → Bool) :
    ∀ (l : List Char) (c : Char), (l.dropWhile p).head? = some c → p c = false := by
  intro l
  induction l with
  | nil => intro c h; simp [List.dropWhile] at h
  | cons a rest ih =>
    intro c h
    rw [List.dropWhile_cons] at h
    by_cases hp : p a
    · simp only [hp, if_true] at h
      exact ih c h
    · simp [hp] at h
      subst h
      simpa using hp

theorem head?_append_left {α : Type} {l1 : List α} (l2 : List α) (h : l1 ≠ []) :
    (l1 ++ l2).head? = l1.head? := by
  cases l1 with
  | nil => exact absurd rfl h
  | cons a t => simp

theorem mem_stripL {l : List Char} {c : Char} (h : c ∈ stripL l) : c ∈ l := by
  unfold stripL at h
  rw [List.mem_reverse] at h
  have h1 : c ∈ (l.dropWhile pyIsSpace).reverse :=
    (List.dropWhile_sublist pyIsSpace).subset h
  rw [List.mem_reverse] at h1
  exact (List.dropWhile_sublist pyIsSpace).subset h1

theorem chain'_dropWhile {R : Char → Char → Prop} {p : Char → Bool}
    {l : List Char} (h : List.Chain' R l) : List.Chain' R (l.dropWhile p) :=
  h.suffix ⟨l.takeWhile p, List.takeWhile_append_dropWhile p l⟩

theorem chain'_stripL {l : List Char} (h : List.Chain' nonSS l) :
    List.Chain' nonSS (stripL l) := by
  unfold stripL
  rw [List.chain'_reverse]
  refine (chain'_dropWhile ?_).imp fun a b hab => nonSS_symm hab
  rw [List.chain'_reverse]
  exact (chain'_dropWhile h).imp fun a b hab => nonSS_symm hab

theorem stripL_head_not {l : List Char} {c : Char}
    (h : (stripL l).head? = some c) : pyIsSpace c = false := by
  have hdecomp := List.takeWhile_append_dropWhile pyIsSpace
    (l.dropWhile pyIsSpace).reverse
  have this1 := congrArg List.reverse hdecomp
  rw [List.reverse_append, List.reverse_reverse] at this1
  have hne : stripL l ≠ [] := by
    intro hnil
    rw [hnil] at h
    simp at h
  have hne' : ((l.dropWhile pyIsSpace).reverse.dropWhile pyIsSpace).reverse ≠ [] := hne
  have h' : (((l.dropWhile pyIsSpace).reverse.dropWhile pyIsSpace).reverse).head? =
      some c := h
  have hh : (l.dropWhile pyIsSpace).head? = some c := by
    rw [← this1, head?_append_left _ hne']
    exact h'
  exact dropWhile_head_not pyIsSpace _ c hh

theorem stripL_last_not {l : List Char} {c : Char}
    (h : (stripL l).getLast? = some c) : pyIsSpace c = false := by
  have h2 : (stripL l).reverse.head? = some c := by
    rw [List.head?_reverse]; exact h
  unfold stripL at h2
  rw [List.reverse_reverse] at h2
  exact dropWhile_head_not pyIsSpace _ c h2

theorem mem_joinSp :
    ∀ L (c : Char), c ∈ joinSp L → c = ' ' ∨ ∃ ch ∈ L, c ∈ ch := by
  intro L
  induction L using joinSp.induct with
  | case1 => intro c h; simp [joinSp] at h
  | case2 x => intro c h; rw [joinSp] at h; right; exact ⟨x, by simp, h⟩
  | case3 x y rest ih =>
    intro c h
    rw [joinSp] at h
    rcases List.mem_append.1 h with h1 | h1
    · right; exact ⟨x, by simp, h1⟩
    · rcases List.mem_cons.1 h1 with rfl | h2
      · left; rfl
      · rcases ih c h2 with h3 | ⟨ch, hch, hc⟩
        · left; exact h3
        · right; exact ⟨ch, List.mem_cons_of_mem _ hch, hc⟩

/-- A cleaned, stripped, nonempty chunk: it does not begin or end with
whitespace and has no two adjacent spaces. -/
def GoodChunk (ch : List Char) : Prop :=
  ch ≠ [] ∧ (∀ c, ch.head? = some c → pyIsSpace c = false) ∧
    (∀ c, ch.getLast? = some c → pyIsSpace c = false) ∧ List.Chain' nonSS ch

theorem joinSp_head :
    ∀ y rest, y ≠ [] → (joinSp (y :: rest)).head? = y.head? := by
  intro y rest hy
  cases rest with
  | nil => rw [joinSp]
  | cons z rest' =>
    rw [joinSp]
    exact head?_append_left _ hy

theorem joinSp_chain' :
    ∀ L, (∀ ch ∈ L, GoodChunk ch) → List.Chain' nonSS (joinSp L) := by
  intro L
  induction L using joinSp.induct with
  | case1 => intro _; simp [joinSp]
  | case2 x =>
    intro hg
    rw [joinSp]
    exact (hg x (by simp)).2.2.2
  | case3 x y rest ih =>
    intro hg
    have hx := hg x (by simp)
    have hy := hg y (by simp)
    rw [joinSp]
    rw [List.chain'_append]
    refine ⟨hx.2.2.2, ?_, ?_⟩
    · rw [List.chain'_cons']
      refine ⟨?_, ih fun ch hch => hg ch (List.mem_cons_of_mem _ hch)⟩
      intro z hz
      rw [joinSp_head y rest hy.1] at hz
      have := hy.2.1 z hz
      intro ⟨_, hz2⟩
      rw [hz2] at this
      simp [pyIsSpace] at this
    · intro a ha b hb
      simp only [List.head?_cons, Option.mem_def, Option.some.injEq] at hb
      subst hb
      have := hx.2.2.1 a ha
      intro ⟨ha2, _⟩
      rw [ha2] at this
      simp [pyIsSpace] at this



/-- Every chunk surviving the cleanup pipeline of `fetch_website_contents`
is a good chunk containing no line-break character. -/
theorem cleanup_chunk_facts (text : List Char) :
    ∀ ch ∈ (((splitOnChar isLineBreak text).map stripL).flatMap
        (fun line => (splitTwoSpace line).map stripL)).filter
          (fun ch => ch ≠ []),
      GoodChunk ch ∧ ∀ c ∈ ch, isLineBreak c = false := by
  intro ch hch
  rw [List.mem_filter] at hch
  obtain ⟨hmem, hne⟩ := hch
  rw [decide_eq_true_eq] at hne
  rw [List.mem_flatMap] at hmem
  obtain ⟨line, hline, hch2⟩ := hmem
  rw [List.mem_map] at hch2
  obtain ⟨ph, hph, rfl⟩ := hch2
  rw [List.mem_map] at hline
  obtain ⟨raw, hraw, rfl⟩ := hline
  refine ⟨⟨hne, ?_, ?_, ?_⟩, ?_⟩
  · intro c hc
    exact stripL_head_not hc
  · intro c hc
    exact stripL_last_not hc
  · exact chain'_stripL ((splitTwoSpace_spec (stripL raw)).1 ph hph)
  · intro c hc
    have h1 : c ∈ ph := mem_stripL hc
    have h2 : c ∈ stripL raw := mem_splitTwoSpace_subset (stripL raw) ph hph c h1
    have h3 : c ∈ raw := mem_stripL h2
    exact mem_splitOnChar isLineBreak text raw hraw c h3

/-- The cleaned text has no two adjacent spaces. -/
theorem cleanupTextL_chain (text : List Char) :
    List.Chain' nonSS (cleanupTextL text) := by
  unfold cleanupTextL
  exact joinSp_chain' _ fun ch hch => (cleanup_chunk_facts text ch hch).1

/-- The cleaned text contains no line-break character. -/
theorem cleanupTextL_no_linebreak (text : List Char) :
    ∀ c ∈ cleanupTextL text, isLineBreak c = false := by
  intro c hc
  unfold cleanupTextL at hc
  rcases mem_joinSp _ c hc with rfl | ⟨ch, hch, hc'⟩
  · decide
  · exact (cleanup_chunk_facts text ch hch).2 c hc'

/-- Behaviour of the truncation step (src/scraper.py lines 53-55). -/
theorem truncateL_spec (t : List Char) :
    (truncateL t).length ≤ MAX_CONTENT_LENGTH + TRUNC_MARKER.data.length ∧
      (t.length ≤ MAX_CONTENT_LENGTH → truncateL t = t) ∧
      (MAX_CONTENT_LENGTH < t.length →
        truncateL t = t.take MAX_CONTENT_LENGTH ++ TRUNC_MARKER.data ∧
        (truncateL t).length = MAX_CONTENT_LENGTH + TRUNC_MARKER.data.length) := by
  unfold truncateL
  by_cases h : MAX_CONTENT_LENGTH < t.length
  · rw [if_pos h]
    have hlen : (t.take MAX_CONTENT_LENGTH ++ TRUNC_MARKER.data).length =
        MAX_CONTENT_LENGTH + TRUNC_MARKER.data.length := by
      rw [List.length_append, List.length_take]
      omega
    exact ⟨le_of_eq hlen, fun hc => absurd hc (by omega), fun _ => ⟨rfl, hlen⟩⟩
  · rw [if_neg h]
    exact ⟨by omega, fun _ => rfl, fun hc => absurd hc h⟩



/- ======================================================================
   Section 3: embedding of src/company_intel.py.

   The on-disk cache is modelled per key as a `CacheFile`: the file may be
   absent, hold a well-formed pickled `(timestamp, payload)` pair, or be
   unreadable (`corrupt` models any `open`/`pickle.load` failure).  Wall
   -clock seconds are `Int` values.  The `...Body` functions are the `try`
   bodies (an `Except` failure is a raised exception); `get_from_cache`
   and `save_to_cache` are the full functions including their
   catch-everything handlers.
   ====================================================================== -/

/-- src/company_intel.py line 28. -/
def MODEL : String := "gpt-4o-mini"

/-- src/company_intel.py line 30 (24 hours in seconds). -/
def CACHE_TTL : Int := 86400

/-- State of one cache file (`CACHE_DIR/{key}.pkl`). -/
inductive CacheFile (α : Type) where
  | absent : CacheFile α
  | corrupt : CacheFile α
  | entry (storedAt : Int) (payload : α) : CacheFile α
deriving DecidableEq, Repr

/-- The `try` body of `get_from_cache` (src/company_intel.py lines 74-86):
missing file falls through to `return None`; a well-formed entry is
returned if younger than `CACHE_TTL`, otherwise the file is removed; an
unreadable file raises. Result: (returned value, state of the file). -/
def getFromCacheBody {α : Type} (now : Int) (file : CacheFile α) :
    Except String (Option α × CacheFile α) :=
  match file with
  | .absent => .ok (none, .absent)
  | .corrupt => .error "cache read error"
  | .entry ts v =>
    if now - ts < CACHE_TTL then .ok (some v, .entry ts v)
    else .ok (none, .absent)

/-- src/company_intel.py lines 70-90, `get_from_cache`: any exception in
the body is caught (printed) and the function returns `None`, leaving the
file as it was. -/
def get_from_cache {α : Type} (now : Int) (file : CacheFile α) :
    Option α × CacheFile α :=
  match getFromCacheBody now file with
  | .ok r => r
  | .error _ => (none, file)

/-- The `try` body of `save_to_cache` (src/company_intel.py lines 97-100):
write a fresh `(timestamp, payload)` entry; `writeOk = false` models an
`open`/`pickle.dump` failure. -/
def saveToCacheBody {α : Type} (now : Int) (v : α) (writeOk : Bool)
    (_file : CacheFile α) : Except String (CacheFile α) :=
  if writeOk then .ok (.entry now v) else .error "cache write error"

/-- src/company_intel.py lines 93-102, `save_to_cache`: any exception is
caught (printed) and the cache entry stays as it was. -/
def save_to_cache {α : Type} (now : Int) (v : α) (writeOk : Bool)
    (file : CacheFile α) : CacheFile α :=
  match saveToCacheBody now v writeOk file with
  | .ok f => f
  | .error _ => file

/-- src/company_intel.py lines 32-35: per-token rates. -/
def TOKEN_COSTS (model : String) : Option (ℚ × ℚ) :=
  if model = "gpt-4o-mini" then some (0.00015 / 1000, 0.0006 / 1000)
  else if model = "gpt-4o" then some (0.005 / 1000, 0.015 / 1000)
  else none

/-- src/company_intel.py lines 105-110, `calculate_cost`
(`TOKEN_COSTS.get(model, TOKEN_COSTS["gpt-4o-mini"])`). -/
def calculate_cost (input_tokens output_tokens : Nat)
    (model : String := MODEL) : ℚ :=
  let costs := (TOKEN_COSTS model).getD ((TOKEN_COSTS "gpt-4o-mini").getD (0, 0))
  (input_tokens : ℚ) * costs.1 + (output_tokens : ℚ) * costs.2

/-- src/company_intel.py lines 146-147: deny-list substrings. -/
def SKIP_PATTERNS : List String :=
  ["login", "signup", "cart", "checkout", "privacy", "terms",
   "cookie", "legal", "#", "javascript:", "mailto:"]

/-- src/company_intel.py lines 50-58: the ordered category → pattern
table.  Each Python regex has the literal shape `/(kw1|kw2|...)` with no
meta-characters, so `re.search(pattern, link)` holds iff the link
contains `"/" ++ kw` for some alternative `kw`. -/
def RELEVANT_LINK_PATTERNS : List (String × List String) :=
  [("about", ["about", "company", "who-we-are", "our-story", "mission", "vision"]),
   ("careers", ["careers", "jobs", "join-us", "work-with-us", "opportunities"]),
   ("products", ["products", "solutions", "services", "offerings", "platform"]),
   ("technology", ["technology", "tech-stack", "engineering", "innovation"]),
   ("news", ["news", "blog", "press", "media", "newsroom", "insights"]),
   ("team", ["team", "leadership", "management", "executives"]),
   ("customers", ["customers", "clients", "case-studies", "success-stories"])]

/-- `re.search(r'/(kw1|...|kwn)', link_lower)` for one category row. -/
def patMatches (kws : List String) (linkLower : String) : Bool :=
  kws.any fun k => containsSubStr ("/" ++ k) linkLower

/-- The deny-list test of src/company_intel.py line 148. -/
def isSkipped (linkLower : String) : Bool :=
  SKIP_PATTERNS.any fun sk => containsSubStr sk linkLower

/-- The inner `for link_type, pattern in RELEVANT_LINK_PATTERNS.items()`
loop (src/company_intel.py lines 152-161): the first category (in table
order) whose pattern matches *and* which is not yet in `seen_types` wins;
a matching but already-seen category does not `break`, so scanning
continues with the later categories. -/
def pickCategory (seen : List String) (linkLower : String) : Option String :=
  (RELEVANT_LINK_PATTERNS.find? fun p =>
    patMatches p.2 linkLower && !(seen.contains p.1)).map Prod.fst

/-- One entry of the `relevant_links` result list:
`{"type": f"{link_type} page", "url": link}`. -/
structure Cand where
  ptype : String
  curl : String
deriving DecidableEq, Repr

/-- The outer `for link in all_links` loop of `filter_relevant_links`
(src/company_intel.py lines 142-165), with accumulator `acc`
(`relevant_links`) and `seen` (`seen_types`).  A deny-listed link
`continue`s; otherwise the first matching unseen category (if any) takes
the link, and after a non-skipped link the `len(relevant_links) >= 5`
check may `break` the loop. -/
def filterGo : List String → List Cand → List String → List Cand
  | [], acc, _ => acc
  | link :: rest, acc, seen =>
    let ll := pyLower link
    if isSkipped ll then filterGo rest acc seen
    else
      match pickCategory seen ll with
      | some cat =>
        let acc2 := acc ++ [⟨cat ++ " page", link⟩]
        if 5 ≤ acc2.length then acc2 else filterGo rest acc2 (seen ++ [cat])
      | none => if 5 ≤ acc.length then acc else filterGo rest acc seen

/-- The pure filtering core of `filter_relevant_links` applied to the
extracted link list. -/
def filterRelevantCore (allLinks : List String) : List Cand :=
  filterGo allLinks [] []

/-- The `{"links": [...]}` result dictionary. -/
structure LinksResult where
  links : List Cand
deriving DecidableEq, Repr

/-- src/company_intel.py lines 117-177, `filter_relevant_links`:
`cached` is what `get_from_cache` returned for the `links_{url}` key (any
cached dict is truthy and returned as is); `extractorRes` is the outcome
of `fetch_website_links(url)`; an extractor exception is caught by the
function's `except` arm, which returns `{"links": []}`.  The
`save_to_cache` side effect is covered by the cache-layer model. -/
def filter_relevant_links (cached : Option LinksResult)
    (extractorRes : Except String (List String)) : LinksResult :=
  match cached with
  | some r => r
  | none =>
    match extractorRes with
    | .error _ => ⟨[]⟩
    | .ok allLinks =>
      if allLinks.isEmpty then ⟨[]⟩
      else ⟨filterRelevantCore allLinks⟩



/- ======================================================================
   Section 3b: page harvesting and prompt assembly.
   ====================================================================== -/

/-- The content section string built at src/company_intel.py line 211:
`f"\n\n### {link_type.upper()}:\n{content}"`. -/
def mkSection (ptype content : String) : String :=
  "\n\n### " ++ pyUpper ptype ++ ":\n" ++ content

/-- Result of one `fetch_page_content` task: the content section (empty
on failure), the candidate, the state of that URL's cache file afterwards
and whether `fetch_with_retry` was invoked. -/
structure PageFetchOut where
  contentSection : String
  info : Cand
  file : CacheFile String
  fetched : Bool
deriving Repr

/-- The cache-miss path of `fetch_page_content` (lines 206-207 plus the
`except` arm): fetch with retry, store on success, empty section on
failure. -/
def fetchPageMiss (now : Int) (fetchRes : Except String String)
    (writeOk : Bool) (info : Cand) (file : CacheFile String) : PageFetchOut :=
  match fetchRes with
  | .ok content =>
    ⟨mkSection info.ptype content, info,
      save_to_cache now content writeOk (get_from_cache now file).2, true⟩
  | .error _ => ⟨"", info, (get_from_cache now file).2, true⟩

/-- src/company_intel.py lines 184-216, `fetch_page_content`.
`fetchRes` is the outcome of `fetch_with_retry(link_url)` (whose
internals are embedded separately by `fetch_with_retry`); `writeOk`
models the `save_to_cache` write.  Note `if cached_content:` — a cached
empty string is falsy and is treated as a miss.  Any exception (a failed
fetch) is caught by the function's `except` arm, which returns
`("", link_info)`. -/
def fetch_page_content (now : Int) (fetchRes : Except String String)
    (writeOk : Bool) (info : Cand) (file : CacheFile String) : PageFetchOut :=
  if info.curl = "" then ⟨"", info, file, false⟩
  else
    match (get_from_cache now file).1 with
    | some c =>
      if c ≠ "" then
        ⟨mkSection info.ptype c, info, (get_from_cache now file).2, false⟩
      else fetchPageMiss now fetchRes writeOk info file
    | none => fetchPageMiss now fetchRes writeOk info file

/-- Result of the main-page block of `get_company_intel_user_prompt`:
the text appended to the prompt, the seed URL's cache file afterwards,
and whether `fetch_with_retry` was invoked. -/
structure SeedOut where
  text : String
  file : CacheFile String
  fetched : Bool
deriving Repr

/-- The cache-miss path of the landing-page block (lines 241-242 plus
its `except` arm). -/
def seedMiss (now : Int) (fetchRes : Except String String)
    (writeOk : Bool) (file : CacheFile String) : SeedOut :=
  match fetchRes with
  | .ok m => ⟨m, save_to_cache now m writeOk (get_from_cache now file).2, true⟩
  | .error e => ⟨"\n[Error loading main page: " ++ e ++ "]",
      (get_from_cache now file).2, true⟩

/-- src/company_intel.py lines 232-247: the landing-page block of
`get_company_intel_user_prompt`.  Same falsy-cache-hit pattern as
`fetch_page_content`; a fetch failure appends an inline error note
instead of aborting. -/
def seedPageStep (now : Int) (fetchRes : Except String String)
    (writeOk : Bool) (file : CacheFile String) : SeedOut :=
  match (get_from_cache now file).1 with
  | some c => if c ≠ "" then ⟨c, (get_from_cache now file).2, false⟩
    else seedMiss now fetchRes writeOk file
  | none => seedMiss now fetchRes writeOk file

/-- The harvesting loop of src/company_intel.py lines 264-275: one
`fetch_page_content` task per candidate, results collected in completion
order (`as_completed`), empty sections skipped (`if content_section:`).
`completionOrder` is the arrival order of the futures — callers
instantiate it with a permutation of the submitted candidates; `files`
gives each URL's cache file and `fetcher` each URL's fetch outcome. -/
def harvestSections (now : Int) (files : String → CacheFile String)
    (fetcher : String → Except String String) (writeOk : Bool)
    (completionOrder : List Cand) : List String :=
  (completionOrder.map fun i =>
    (fetch_page_content now (fetcher i.curl) writeOk i (files i.curl)).contentSection).filter
    fun sec => sec ≠ ""

/-- The f-string opening `get_company_intel_user_prompt`
(src/company_intel.py lines 224-230). -/
def USER_PROMPT_HEAD (company_name : String) : String :=
  "\n    You are looking at a company called: " ++ company_name ++
  "\n    Here are the contents of its landing page and other relevant pages;\n    use this information to build a short report about the company to help an OutSystems sell low-code software to the company.\n\n    ## LANDING PAGE CONTENT:\n    "

/-- src/company_intel.py lines 219-289, `get_company_intel_user_prompt`:
landing-page block, then `filter_relevant_links`, then the parallel
harvest of the first 5 candidates with one section appended per
successful fetch.  The trailing `except` arm of the link-analysis block
is unreachable here because every embedded step is total. -/
def get_company_intel_user_prompt (company_name : String) (now : Int)
    (seedFetch : Except String String) (seedFile : CacheFile String)
    (linkCache : Option LinksResult)
    (extractorRes : Except String (List String))
    (files : String → CacheFile String)
    (fetcher : String → Except String String) (writeOk : Bool)
    (completionOrder : List Cand) : String :=
  let base := USER_PROMPT_HEAD company_name
  let seed := seedPageStep now seedFetch writeOk seedFile
  let p1 := base ++ seed.text
  let relevant_links := filter_relevant_links linkCache extractorRes
  if 0 < relevant_links.links.length then
    p1 ++ "\n\n## ADDITIONAL RELEVANT PAGES:\n" ++
      String.join (harvestSections now files fetcher writeOk completionOrder)
  else p1

/- ======================================================================
   Section 3c: report generation (`get_company_intel`,
   `generate_report_html`, `generate_report_with_download`).

   The once-only claims are about how often the expensive collaborators
   are invoked, so the embedding threads an explicit `Trace` through the
   control flow: prompt assembly and the OpenAI call are counted, every
   user prompt handed to the LLM and every markup string handed to the
   PDF converter is logged.
   ====================================================================== -/

/-- `response.usage`. -/
structure LlmUsage where
  prompt_tokens : Nat
  completion_tokens : Nat
  total_tokens : Nat
deriving Repr

/-- The OpenAI chat completion response (the parts the source reads). -/
structure LlmResp where
  content : String
  usage : LlmUsage
deriving Repr

/-- The metadata dict built at src/company_intel.py lines 338-345. -/
structure Metadata where
  input_tokens : Nat
  output_tokens : Nat
  total_tokens : Nat
  cost : ℚ
  elapsed_time : ℚ
  model : String
deriving Repr

/-- Counters of the side-effecting calls made while serving one request. -/
structure Trace where
  promptBuilds : Nat
  llmCalls : Nat
  llmInputs : List String
  pdfSources : List String
deriving Repr

def Trace.start : Trace := ⟨0, 0, [], []⟩

/-- External collaborators of `get_company_intel`: the cached report for
the `report_{company_name}_{url}` key (none = cache miss), the prompt
assembler (counted — its internals are `get_company_intel_user_prompt`),
the summarization service (an exception is `.error`), and the elapsed
wall-clock seconds. -/
structure IntelEnv where
  cachedReport : Option (String × Metadata)
  buildPrompt : Unit → String
  llm : String → String → Except String LlmResp
  elapsed : ℚ

/-- src/company_intel.py lines 41-47. -/
def COMPANY_INTEL_SYSTEM_PROMPT : String :=
  "\nYou are an assistant that analyzes the contents of several relevant pages from a company website\nand creates a short report about the company to help an OutSystems sell low-code software to the company.\nRespond in markdown.\nInclude details of company objectives, priorities and initiatives/plans if you have the information.\nFormat the report with clear sections and bullet points for readability.\n"

/-- src/company_intel.py lines 292-363, `get_company_intel`: return the
cached report if present; otherwise build the user prompt exactly once
(line 312), call the summarizer once with it (lines 319-325), and either
assemble the metadata or fall into the `except` arm that returns an error
string with empty metadata (`none` models the empty dict). -/
def get_company_intel (e : IntelEnv) (t : Trace) :
    (String × Option Metadata) × Trace :=
  match e.cachedReport with
  | some rm => ((rm.1, some rm.2), t)
  | none =>
    match e.llm COMPANY_INTEL_SYSTEM_PROMPT (e.buildPrompt ()) with
    | .ok resp =>
      ((resp.content,
        some ⟨resp.usage.prompt_tokens, resp.usage.completion_tokens,
              resp.usage.total_tokens,
              calculate_cost resp.usage.prompt_tokens
                resp.usage.completion_tokens MODEL,
              e.elapsed, MODEL⟩),
       { t with promptBuilds := t.promptBuilds + 1, llmCalls := t.llmCalls + 1,
                llmInputs := t.llmInputs ++ [e.buildPrompt ()] })
    | .error err =>
      (("Error generating report: " ++ err, none),
       { t with promptBuilds := t.promptBuilds + 1, llmCalls := t.llmCalls + 1,
                llmInputs := t.llmInputs ++ [e.buildPrompt ()] })

/-- src/company_intel.py line 373. -/
def ERR_PROVIDE_BOTH : String :=
  "<p style='color: red;'>Please provide both company name and URL.</p>"

/-- src/company_intel.py line 377. -/
def ERR_SCHEME : String :=
  "<p style='color: red;'>URL must start with http:// or https://</p>"

/-- The styled container of src/company_intel.py lines 409-437 (literal
braces written as escapes; the f-string holes become the four arguments). -/
def styledHtml (company_name url cost_info html_report : String) : String :=
  "\n        <div style='font-family: -apple-system, BlinkMacSystemFont, \"Segoe UI\", Roboto, \"Helvetica Neue\", Arial, sans-serif;'>\n            <div style='background: linear-gradient(135deg, #667eea 0%, #764ba2 100%); padding: 30px; border-radius: 10px 10px 0 0; color: white;'>\n                <h1 style='margin: 0; font-size: 28px; color: white;'>📊 Company Intelligence Report</h1>\n                <p style='margin: 10px 0 0 0; font-size: 18px; color: white;'>" ++
  company_name ++
  "</p>\n                <p style='margin: 5px 0 0 0; font-size: 14px;'><a href='" ++
  url ++
  "' target='_blank' style='color: white; text-decoration: underline;'>" ++
  url ++
  "</a></p>\n            </div>\n            <div style='padding: 30px; background-color: white; border-radius: 0 0 10px 10px; box-shadow: 0 2px 10px rgba(0,0,0,0.1); line-height: 1.8; color: #1a1a1a;'>\n                <style>\n                    /* Ensure all text has good contrast */\n                    h1, h2, h3, h4, h5, h6 \x7b color: #1a1a1a !important; margin-top: 20px; margin-bottom: 10px; font-weight: 600; \x7d\n                    p \x7b color: #2d2d2d !important; margin-bottom: 12px; font-size: 15px; \x7d\n                    ul, ol \x7b color: #2d2d2d !important; \x7d\n                    li \x7b color: #2d2d2d !important; margin-bottom: 8px; font-size: 15px; \x7d\n                    strong, b \x7b color: #000000 !important; font-weight: 600; \x7d\n                    a \x7b color: #0066cc !important; text-decoration: underline; \x7d\n                    code \x7b background-color: #f4f4f4; padding: 2px 6px; border-radius: 3px; color: #d63384; \x7d\n                    pre \x7b background-color: #f8f9fa; padding: 15px; border-radius: 5px; border-left: 4px solid #667eea; overflow-x: auto; \x7d\n                    blockquote \x7b border-left: 4px solid #667eea; padding-left: 15px; color: #444; font-style: italic; \x7d\n                </style>\n                " ++
  html_report ++
  "\n            </div>\n            <div style='margin-top: 20px; padding: 15px; background-color: #e8eaf6; border-left: 4px solid #667eea; border-radius: 5px; font-size: 13px; color: #1a1a1a;'>\n                <strong style='color: #000;'>Note:</strong> This report was generated using AI analysis of publicly available website content.\n                Always verify information and supplement with additional research.\n                " ++
  cost_info ++
  "\n            </div>\n        </div>\n        "

/-- src/company_intel.py lines 366-455, `generate_report_html`:
validation of the two inputs and of the URL scheme, then one call of
`get_company_intel`, markdown conversion (`mdToHtml` models the
`markdown.markdown` library call) and the styled wrapper.  `fmtStats`
models the number-formatted Generation-Stats block of lines 398-406
(Python float formatting is abstracted); it is only inserted when the
metadata dict is non-empty and has a `cost` key, i.e. on the
`some`-metadata path.  The enclosing `except` arm is unreachable because
the embedded body is total. -/
def generate_report_html (mdToHtml : String → String)
    (fmtStats : Metadata → String) (e : IntelEnv)
    (company_name url : String) (t : Trace) :
    (String × Option Metadata) × Trace :=
  if company_name = "" ∨ url = "" then ((ERR_PROVIDE_BOTH, none), t)
  else if ¬ (pyStartsWith url "http://" || pyStartsWith url "https://") then
    ((ERR_SCHEME, none), t)
  else
    ((styledHtml company_name url
        (match (get_company_intel e t).1.2 with
          | some m => fmtStats m
          | none => "")
        (mdToHtml (get_company_intel e t).1.1),
      (get_company_intel e t).1.2),
     (get_company_intel e t).2)

/-- src/company_intel.py lines 458-510, `generate_report_with_download`:
one call of `generate_report_html`; if the markup contains one of the two
error markers the PDF step is skipped; otherwise the *same* markup string
is handed to the HTML→PDF converter (`pdfConv` models
`HTML(string=...).write_pdf`, logged in the trace); a converter failure
is caught by the `except` arm which still returns the markup with no
download handle. -/
def generate_report_with_download (mdToHtml : String → String)
    (fmtStats : Metadata → String) (e : IntelEnv)
    (pdfConv : String → Except String String)
    (company_name url : String) (t : Trace) :
    (String × Option String) × Trace :=
  if containsSubStr "Error Generating Report"
        (generate_report_html mdToHtml fmtStats e company_name url t).1.1 ||
      containsSubStr "Please provide both"
        (generate_report_html mdToHtml fmtStats e company_name url t).1.1 then
    (((generate_report_html mdToHtml fmtStats e company_name url t).1.1, none),
     (generate_report_html mdToHtml fmtStats e company_name url t).2)
  else
    match pdfConv
        (generate_report_html mdToHtml fmtStats e company_name url t).1.1 with
    | .ok path =>
      (((generate_report_html mdToHtml fmtStats e company_name url t).1.1,
        some path),
       { (generate_report_html mdToHtml fmtStats e company_name url t).2 with
          pdfSources :=
            (generate_report_html mdToHtml fmtStats e company_name url t).2.pdfSources
            ++ [(generate_report_html mdToHtml fmtStats e company_name url t).1.1] })
    | .error _ =>
      (((generate_report_html mdToHtml fmtStats e company_name url t).1.1,
        none),
       { (generate_report_html mdToHtml fmtStats e company_name url t).2 with
          pdfSources :=
            (generate_report_html mdToHtml fmtStats e company_name url t).2.pdfSources
            ++ [(generate_report_html mdToHtml fmtStats e company_name url t).1.1] })



/- ======================================================================
   Section 4: lemmas about the rule-based link filter (claim C2).
   ====================================================================== -/

theorem string_data_inj {a b : String} (h : a.data = b.data) : a = b := by
  cases a; cases b; exact congrArg String.mk h

/-- `(· ++ " page")` is injective, so distinct categories give distinct
`type` strings. -/
theorem appendPageInj {a b : String} (h : a ++ " page" = b ++ " page") :
    a = b := by
  have hd := congrArg String.data h
  rw [String.data_append, String.data_append] at hd
  exact string_data_inj (List.append_cancel_right hd)

/-- `find?` returns the first satisfying element: everything before it in
the list fails the predicate. -/
theorem find?_first_decomp {α : Type} {p : α → Bool} :
    ∀ {l : List α} {x : α}, List.find? p l = some x →
      ∃ l1 l2, l = l1 ++ x :: l2 ∧ ∀ y ∈ l1, p y = false := by
  intro l
  induction l with
  | nil => intro x h; simp at h
  | cons a rest ih =>
    intro x h
    rw [List.find?_cons] at h
    cases hp : p a with
    | true =>
      simp only [hp] at h
      obtain rfl := Option.some.inj h
      exact ⟨[], rest, rfl, by simp⟩
    | false =>
      simp only [hp] at h
      obtain ⟨l1, l2, rfl, hfail⟩ := ih h
      refine ⟨a :: l1, l2, rfl, ?_⟩
      intro y hy
      rcases List.mem_cons.1 hy with rfl | hy'
      · exact hp
      · exact hfail y hy'

theorem indexOf_append_of_not_mem {x : String} :
    ∀ {l1 : List String} (l2 : List String), x ∉ l1 →
      (l1 ++ l2).indexOf x = l1.length + l2.indexOf x := by
  intro l1
  induction l1 with
  | nil => intro l2 _; simp
  | cons a rest ih =>
    intro l2 hx
    have hxa : a ≠ x := fun hh => hx (by simp [hh])
    rw [List.cons_append, List.indexOf_cons_ne _ hxa, ih l2 (fun hh => hx (by simp [hh]))]
    simp only [List.length_cons]
    omega

/-- Position of a category in the pattern table. -/
def tblIdx (cat : String) : Nat :=
  (RELEVANT_LINK_PATTERNS.map Prod.fst).indexOf cat

theorem pickCategory_some {seen : List String} {ll cat : String}
    (h : pickCategory seen ll = some cat) :
    ∃ kws, (cat, kws) ∈ RELEVANT_LINK_PATTERNS ∧ patMatches kws ll = true ∧
      cat ∉ seen := by
  unfold pickCategory at h
  cases hf : RELEVANT_LINK_PATTERNS.find? fun p =>
      patMatches p.2 ll && !(seen.contains p.1) with
  | none => rw [hf] at h; simp at h
  | some pr =>
    rw [hf] at h
    simp only [Option.map_some', Option.some.injEq] at h
    subst h
    have hmem := List.mem_of_find?_eq_some hf
    have hsat := List.find?_some hf
    rw [Bool.and_eq_true, Bool.not_eq_true'] at hsat
    refine ⟨pr.2, by simpa using hmem, hsat.1, ?_⟩
    intro hcontr
    have hc2 := hsat.2
    simp [hcontr] at hc2

/-- If `pickCategory` chose `cat0` while `(cat, kws)` also matches and is
unseen, then `cat0` comes no later than `cat` in the table; if moreover
`cat ≠ cat0`, it comes strictly earlier. -/
theorem pickCategory_earliest {seen : List String} {ll cat0 cat : String}
    {kws : List String}
    (h : pickCategory seen ll = some cat0)
    (hcat : (cat, kws) ∈ RELEVANT_LINK_PATTERNS)
    (hmatch : patMatches kws ll = true) (hunseen : cat ∉ seen)
    (hne : cat ≠ cat0) : tblIdx cat0 < tblIdx cat := by
  unfold pickCategory at h
  cases hf : RELEVANT_LINK_PATTERNS.find? fun p =>
      patMatches p.2 ll && !(seen.contains p.1) with
  | none => rw [hf] at h; simp at h
  | some pr =>
    rw [hf] at h
    simp only [Option.map_some', Option.some.injEq] at h
    subst h
    obtain ⟨t1, t2, hdec, hfail⟩ := find?_first_decomp hf
    have hnodup : (RELEVANT_LINK_PATTERNS.map Prod.fst).Nodup := by decide
    have hcatp : (patMatches (cat, kws).2 ll && !(seen.contains (cat, kws).1)) = true := by
      rw [Bool.and_eq_true, Bool.not_eq_true']
      refine ⟨hmatch, ?_⟩
      simpa using hunseen
    have hcatnott1 : (cat, kws) ∉ t1 := fun hmem => by
      rw [hfail (cat, kws) hmem] at hcatp
      simp at hcatp
    have hcatt2 : (cat, kws) ∈ t2 := by
      rw [hdec] at hcat
      rcases List.mem_append.1 hcat with h1 | h1
      · exact absurd h1 hcatnott1
      · rcases List.mem_cons.1 h1 with h2 | h2
        · exact absurd (congrArg Prod.fst h2) hne
        · exact h2
    have hmapdec : RELEVANT_LINK_PATTERNS.map Prod.fst =
        t1.map Prod.fst ++ pr.1 :: t2.map Prod.fst := by
      rw [hdec]; simp
    rw [hmapdec] at hnodup
    have hpr1 : pr.1 ∉ t1.map Prod.fst := by
      have hd := (List.nodup_append.1 hnodup).2.2
      intro hmem
      exact hd hmem (List.mem_cons_self _ _)
    have hcatnotmap : cat ∉ t1.map Prod.fst := by
      have hdisj := (List.nodup_append.1 hnodup).2.2
      intro hmem
      refine hdisj hmem (List.mem_cons_of_mem _ ?_)
      exact List.mem_map_of_mem Prod.fst hcatt2
    unfold tblIdx
    rw [hmapdec]
    rw [indexOf_append_of_not_mem _ hpr1, indexOf_append_of_not_mem _ hcatnotmap]
    rw [List.indexOf_cons_self, List.indexOf_cons_ne _ hne.symm]
    omega



theorem filterGo_cons_skip (link : String) (rest : List String)
    (acc : List Cand) (seen : List String)
    (hsk : isSkipped (pyLower link) = true) :
    filterGo (link :: rest) acc seen = filterGo rest acc seen := by
  rw [filterGo]
  simp [hsk]

theorem filterGo_cons_pick (link : String) (rest : List String)
    (acc : List Cand) (seen : List String) (cat : String)
    (hsk : isSkipped (pyLower link) = false)
    (hpc : pickCategory seen (pyLower link) = some cat) :
    filterGo (link :: rest) acc seen =
      if 5 ≤ acc.length + 1 then acc ++ [⟨cat ++ " page", link⟩]
      else filterGo rest (acc ++ [⟨cat ++ " page", link⟩]) (seen ++ [cat]) := by
  rw [filterGo]
  simp [hsk, hpc, List.length_append]

theorem filterGo_cons_none (link : String) (rest : List String)
    (acc : List Cand) (seen : List String)
    (hsk : isSkipped (pyLower link) = false)
    (hpc : pickCategory seen (pyLower link) = none) :
    filterGo (link :: rest) acc seen =
      if 5 ≤ acc.length then acc else filterGo rest acc seen := by
  rw [filterGo]
  simp [hsk, hpc]

theorem filterGo_length_le :
    ∀ (links : List String) (acc : List Cand) (seen : List String),
      acc.length < 5 → (filterGo links acc seen).length ≤ 5 := by
  intro links
  induction links with
  | nil => intro acc seen h; rw [filterGo]; omega
  | cons link rest ih =>
    intro acc seen h
    by_cases hsk : isSkipped (pyLower link)
    · rw [filterGo_cons_skip link rest acc seen hsk]
      exact ih acc seen h
    · rw [Bool.not_eq_true] at hsk
      cases hpc : pickCategory seen (pyLower link) with
      | some cat =>
        rw [filterGo_cons_pick link rest acc seen cat hsk hpc]
        by_cases hcap : 5 ≤ acc.length + 1
        · rw [if_pos hcap]
          rw [List.length_append]
          simp only [List.length_cons, List.length_nil]
          omega
        · rw [if_neg hcap]
          refine ih _ _ ?_
          rw [List.length_append]
          simp only [List.length_cons, List.length_nil]
          omega
      | none =>
        rw [filterGo_cons_none link rest acc seen hsk hpc]
        rw [if_neg (by omega)]
        exact ih acc seen h

/-- Structure of a `filterGo` run: the result extends the accumulator
with candidates whose categories are pairwise distinct, not yet seen, and
each of which names a pattern-table row matched by its (non-deny-listed)
link. -/
theorem filterGo_extension :
    ∀ (links : List String) (acc : List Cand) (seen : List String),
      ∃ (t : List Cand) (cats : List String),
        filterGo links acc seen = acc ++ t ∧
        t.map Cand.ptype = cats.map (fun c => c ++ " page") ∧
        cats.Nodup ∧ (∀ c ∈ cats, c ∉ seen) ∧
        (∀ cd ∈ t, ∃ cat kws, (cat, kws) ∈ RELEVANT_LINK_PATTERNS ∧
          cd.ptype = cat ++ " page" ∧ cd.curl ∈ links ∧
          isSkipped (pyLower cd.curl) = false ∧
          patMatches kws (pyLower cd.curl) = true) := by
  intro links
  induction links with
  | nil =>
    intro acc seen
    refine ⟨[], [], ?_, by simp, by simp, by simp, by simp⟩
    rw [filterGo]
    simp
  | cons link rest ih =>
    intro acc seen
    by_cases hsk : isSkipped (pyLower link)
    · obtain ⟨t, cats, heq, hmap, hnd, hfresh, hsound⟩ := ih acc seen
      refine ⟨t, cats, ?_, hmap, hnd, hfresh, ?_⟩
      · rw [filterGo_cons_skip link rest acc seen hsk]; exact heq
      · intro cd hcd
        obtain ⟨cat, kws, h1, h2, h3, h4, h5⟩ := hsound cd hcd
        exact ⟨cat, kws, h1, h2, List.mem_cons_of_mem _ h3, h4, h5⟩
    · rw [Bool.not_eq_true] at hsk
      cases hpc : pickCategory seen (pyLower link) with
      | some cat =>
        obtain ⟨kws, hrow, hmatch, hunseen⟩ := pickCategory_some hpc
        by_cases hcap : 5 ≤ acc.length + 1
        · refine ⟨[⟨cat ++ " page", link⟩], [cat], ?_, by simp, by simp,
            by simpa using hunseen, ?_⟩
          · rw [filterGo_cons_pick link rest acc seen cat hsk hpc, if_pos hcap]
          · intro cd hcd
            rw [List.mem_singleton] at hcd
            subst hcd
            exact ⟨cat, kws, hrow, rfl, by simp, hsk, hmatch⟩
        · obtain ⟨t, cats, heq, hmap, hnd, hfresh, hsound⟩ :=
            ih (acc ++ [⟨cat ++ " page", link⟩]) (seen ++ [cat])
          refine ⟨⟨cat ++ " page", link⟩ :: t, cat :: cats, ?_, ?_, ?_, ?_, ?_⟩
          · rw [filterGo_cons_pick link rest acc seen cat hsk hpc, if_neg hcap, heq]
            simp
          · simp only [List.map_cons, hmap]
          · refine List.nodup_cons.2 ⟨?_, hnd⟩
            intro hmem
            have := hfresh cat hmem
            simp at this
          · intro c hc
            rcases List.mem_cons.1 hc with rfl | hc'
            · exact hunseen
            · have := hfresh c hc'
              intro hmem
              exact this (by simp [hmem])
          · intro cd hcd
            rcases List.mem_cons.1 hcd with rfl | hcd'
            · exact ⟨cat, kws, hrow, rfl, by simp, hsk, hmatch⟩
            · obtain ⟨cat', kws', h1, h2, h3, h4, h5⟩ := hsound cd hcd'
              exact ⟨cat', kws', h1, h2, List.mem_cons_of_mem _ h3, h4, h5⟩
      | none =>
        by_cases hcap : 5 ≤ acc.length
        · refine ⟨[], [], ?_, by simp, by simp, by simp, by simp⟩
          rw [filterGo_cons_none link rest acc seen hsk hpc, if_pos hcap]
          simp
        · obtain ⟨t, cats, heq, hmap, hnd, hfresh, hsound⟩ := ih acc seen
          refine ⟨t, cats, ?_, hmap, hnd, hfresh, ?_⟩
          · rw [filterGo_cons_none link rest acc seen hsk hpc, if_neg hcap]
            exact heq
          · intro cd hcd
            obtain ⟨cat', kws', h1, h2, h3, h4, h5⟩ := hsound cd hcd
            exact ⟨cat', kws', h1, h2, List.mem_cons_of_mem _ h3, h4, h5⟩


theorem pickCategory_none {seen : List String} {ll : String}
    (h : pickCategory seen ll = none) :
    ∀ cat kws, (cat, kws) ∈ RELEVANT_LINK_PATTERNS →
      patMatches kws ll = true → cat ∈ seen := by
  intro cat kws hrow hmatch
  unfold pickCategory at h
  rw [Option.map_eq_none'] at h
  rw [List.find?_eq_none] at h
  have := h (cat, kws) hrow
  rw [Bool.and_eq_true, Bool.not_eq_true'] at this
  by_contra hnot
  refine this ⟨hmatch, ?_⟩
  simpa using hnot

/-- First-match discipline of the filter, as the code actually implements
it: if `cd` was kept for category `cat`, then every earlier, non-deny-
listed link that matches `cat`'s pattern was itself kept — for a category
strictly earlier in the table (its first matching unseen category won
before `cat` could). -/
theorem filterGo_first :
    ∀ (links : List String) (acc : List Cand) (seen : List String)
      (cd : Cand) (cat : String) (kws : List String),
      cd ∈ filterGo links acc seen → cd ∉ acc →
      (cat, kws) ∈ RELEVANT_LINK_PATTERNS → cd.ptype = cat ++ " page" →
      ∃ l1 l2, links = l1 ++ cd.curl :: l2 ∧
        ∀ v ∈ l1, isSkipped (pyLower v) = false →
          patMatches kws (pyLower v) = true →
          ∃ cd2 cat2 kws2, cd2 ∈ filterGo links acc seen ∧ cd2.curl = v ∧
            (cat2, kws2) ∈ RELEVANT_LINK_PATTERNS ∧
            cd2.ptype = cat2 ++ " page" ∧ tblIdx cat2 < tblIdx cat := by
  intro links
  induction links with
  | nil =>
    intro acc seen cd cat kws hmem hnacc _ _
    rw [filterGo] at hmem
    exact absurd hmem hnacc
  | cons link rest ih =>
    intro acc seen cd cat kws hmem hnacc hrow hptype
    by_cases hsk : isSkipped (pyLower link)
    · rw [filterGo_cons_skip link rest acc seen hsk] at hmem ⊢
      obtain ⟨l1, l2, hdec, hprop⟩ := ih acc seen cd cat kws hmem hnacc hrow hptype
      refine ⟨link :: l1, l2, by rw [hdec, List.cons_append], ?_⟩
      intro v hv hvsk hvmatch
      rcases List.mem_cons.1 hv with rfl | hv'
      · rw [hsk] at hvsk
        exact absurd hvsk (by simp)
      · exact hprop v hv' hvsk hvmatch
    · rw [Bool.not_eq_true] at hsk
      cases hpc : pickCategory seen (pyLower link) with
      | some cat0 =>
        rw [filterGo_cons_pick link rest acc seen cat0 hsk hpc] at hmem ⊢
        by_cases hcap : 5 ≤ acc.length + 1
        · rw [if_pos hcap] at hmem ⊢
          rcases List.mem_append.1 hmem with hacc | hone
          · exact absurd hacc hnacc
          · rw [List.mem_singleton] at hone
            subst hone
            exact ⟨[], rest, by simp, by simp⟩
        · rw [if_neg hcap] at hmem ⊢
          by_cases hcd : cd = ⟨cat0 ++ " page", link⟩
          · subst hcd
            exact ⟨[], rest, by simp, by simp⟩
          · have hnacc2 : cd ∉ acc ++ [(⟨cat0 ++ " page", link⟩ : Cand)] := by
              intro hm
              rcases List.mem_append.1 hm with h1 | h1
              · exact hnacc h1
              · rw [List.mem_singleton] at h1
                exact hcd h1
            obtain ⟨l1, l2, hdec, hprop⟩ :=
              ih _ _ cd cat kws hmem hnacc2 hrow hptype
            refine ⟨link :: l1, l2, by rw [hdec, List.cons_append], ?_⟩
            intro v hv hvsk hvmatch
            rcases List.mem_cons.1 hv with rfl | hv'
            · obtain ⟨kws0, hrow0, hmatch0, hunseen0⟩ := pickCategory_some hpc
              obtain ⟨t, cats, heq, hmap, hnd, hfresh, hsound⟩ :=
                filterGo_extension rest
                  (acc ++ [⟨cat0 ++ " page", v⟩]) (seen ++ [cat0])
              have hcdmem2 := hmem
              rw [heq] at hcdmem2
              rcases List.mem_append.1 hcdmem2 with h1 | h1
              · exact absurd h1 hnacc2
              · -- cd is a freshly added candidate of the rest-run, so its
                -- category is unseen at that point
                have hcatfresh : cat ∉ seen ++ [cat0] := by
                  have hmem3 : cd.ptype ∈ t.map Cand.ptype :=
                    List.mem_map_of_mem _ h1
                  rw [hmap] at hmem3
                  obtain ⟨c0, hc0mem, hc0eq⟩ := List.mem_map.1 hmem3
                  have hc0 : c0 = cat := appendPageInj (hc0eq.trans hptype)
                  subst hc0
                  exact hfresh c0 hc0mem
                have hcatseen : cat ∉ seen := by
                  intro hm; exact hcatfresh (by simp [hm])
                have hne : cat ≠ cat0 := by
                  intro hm; exact hcatfresh (by simp [hm])
                refine ⟨⟨cat0 ++ " page", v⟩, cat0, kws0, ?_, rfl, hrow0, rfl, ?_⟩
                · rw [heq]
                  exact List.mem_append.2 (Or.inl (by simp))
                · exact pickCategory_earliest hpc hrow hvmatch hcatseen hne
            · exact hprop v hv' hvsk hvmatch
      | none =>
        rw [filterGo_cons_none link rest acc seen hsk hpc] at hmem ⊢
        by_cases hcap : 5 ≤ acc.length
        · rw [if_pos hcap] at hmem
          exact absurd hmem hnacc
        · rw [if_neg hcap] at hmem ⊢
          obtain ⟨l1, l2, hdec, hprop⟩ := ih acc seen cd cat kws hmem hnacc hrow hptype
          refine ⟨link :: l1, l2, by rw [hdec, List.cons_append], ?_⟩
          intro v hv hvsk hvmatch
          rcases List.mem_cons.1 hv with rfl | hv'
          · -- cd's category is unseen throughout the rest-run, so the
            -- inner loop could not have returned `none` on this link
            obtain ⟨t, cats, heq, hmap, hnd, hfresh, hsound⟩ :=
              filterGo_extension rest acc seen
            have hcdmem2 := hmem
            rw [heq] at hcdmem2
            rcases List.mem_append.1 hcdmem2 with h1 | h1
            · exact absurd h1 hnacc
            · have hcatfresh : cat ∉ seen := by
                have hmem3 : cd.ptype ∈ t.map Cand.ptype :=
                  List.mem_map_of_mem _ h1
                rw [hmap] at hmem3
                obtain ⟨c0, hc0mem, hc0eq⟩ := List.mem_map.1 hmem3
                have hc0 : c0 = cat := appendPageInj (hc0eq.trans hptype)
                subst hc0
                exact hfresh c0 hc0mem
              exact absurd (pickCategory_none hpc cat kws hrow hvmatch) hcatfresh
          · exact hprop v hv' hvsk hvmatch



/- ======================================================================
   Section 5: lemmas about the error messages (claim C8).

   `fetch_website_links` raises messages of the form
   `"... links from {url}..."` while `fetch_website_contents` raises
   `"... {url}..."`; for one and the same url the two families never
   collide, so the two failure kinds are distinguishable values.
   ====================================================================== -/

/-- A nonempty prefix cannot be glued onto a list without changing it. -/
theorem ne_self_append {p u : List Char} (hp : p ≠ []) : p ++ u ≠ u := by
  intro h
  have := congrArg List.length h
  rw [List.length_append] at this
  have : p.length = 0 := by omega
  exact hp (List.length_eq_zero.1 this)

/-- Core non-collision argument, short case: if `u` is shorter than
`"links from "`, the character at index `u.length` is `':'` on the right
but a character of `"links from "` on the left. -/
theorem noShift_short (u m1 m2 : List Char) (h : u.length < 11) :
    "links from ".data ++ (u ++ (": ".data ++ m1)) ≠ u ++ (": ".data ++ m2) := by
  intro heq
  have hget := congrArg (fun l => l[u.length]?) heq
  simp only [] at hget
  have hlhs : ("links from ".data ++ (u ++ (": ".data ++ m1)))[u.length]? =
      ("links from ".data)[u.length]? := by
    rw [List.getElem?_append]
    rw [if_pos (by rw [show ("links from ".data).length = 11 from by decide]; omega)]
  have hrhs : (u ++ (": ".data ++ m2))[u.length]? = some ':' := by
    rw [List.getElem?_append]
    rw [if_neg (by omega)]
    simp
  rw [hlhs, hrhs] at hget
  have : (':' : Char) ∈ "links from ".data := List.getElem?_mem hget
  revert this
  decide

/-- Core non-collision argument: `"links from " ++ u ++ ": " ++ m1` never
equals `u ++ ": " ++ m2`, whatever `u`, `m1`, `m2` are. -/
theorem noShiftL :
    ∀ (n : Nat) (u m1 m2 : List Char), u.length ≤ n →
      "links from ".data ++ (u ++ (": ".data ++ m1)) ≠ u ++ (": ".data ++ m2) := by
  intro n
  induction n with
  | zero =>
    intro u m1 m2 hlen
    exact noShift_short u m1 m2 (by omega)
  | succ n ih =>
    intro u m1 m2 hlen heq
    by_cases hcase : u.length < 11
    · exact noShift_short u m1 m2 hcase heq
    · have htake := congrArg (List.take 11) heq
      have hlhs : (("links from ".data ++ (u ++ (": ".data ++ m1))).take 11) =
          "links from ".data := List.take_left' (by decide)
      have hrhs : ((u ++ (": ".data ++ m2)).take 11) = u.take 11 :=
        List.take_append_of_le_length (by omega)
      rw [hlhs, hrhs] at htake
      have hu : u = "links from ".data ++ u.drop 11 := by
        conv_lhs => rw [← List.take_append_drop 11 u]
        rw [← htake]
      rw [hu] at heq
      simp only [List.append_assoc] at heq
      have heq2 := List.append_cancel_left heq
      exact ih (u.drop 11) m1 m2 (by rw [List.length_drop]; omega) heq2

/-- String-level version of the non-collision lemma. -/
theorem linkMsg_ne_contentMsg_core (u m1 m2 : String) :
    "links from " ++ u ++ ": " ++ m1 ≠ u ++ ": " ++ m2 := by
  intro h
  have hd := congrArg String.data h
  simp only [String.data_append] at hd
  rw [List.append_assoc, List.append_assoc, List.append_assoc] at hd
  exact noShiftL u.data.length u.data m1.data m2.data le_rfl hd



/- ======================================================================
   Section 6: the claims.
   ====================================================================== -/

/-- C4: For every cache key, a get (`get_from_cache`) on an entry whose
age `now - storedAt` is at least TTL (86400 seconds) returns absent and
deletes the entry file as a side effect, while a get on an entry younger
than TTL returns the stored payload; i.e. an entry is valid iff
`now - storedAt < TTL`. -/
theorem C4_cache_ttl_expiry {α : Type} (now ts : Int) (v : α) :
    (CACHE_TTL ≤ now - ts →
      get_from_cache now (CacheFile.entry ts v) = (none, CacheFile.absent)) ∧
    (now - ts < CACHE_TTL →
      get_from_cache now (CacheFile.entry ts v) =
        (some v, CacheFile.entry ts v)) := by
  constructor
  · intro h
    simp only [get_from_cache, getFromCacheBody]
    rw [if_neg (by omega)]
  · intro h
    simp only [get_from_cache, getFromCacheBody]
    rw [if_pos h]

theorem C4_cache_ttl_expiry_witness :
    get_from_cache 86400 (CacheFile.entry 0 "payload") =
      (none, CacheFile.absent) ∧
    get_from_cache 86399 (CacheFile.entry 0 "payload") =
      (some "payload", CacheFile.entry 0 "payload") :=
  ⟨(C4_cache_ttl_expiry 86400 0 "payload").1 (by decide),
   (C4_cache_ttl_expiry 86399 0 "payload").2 (by decide)⟩

/-- C10: the cache operations never raise: every failing read (missing
file or unreadable entry) degrades to `None` with the file untouched,
every failing write is a silent no-op, and a corrupt cache file behaves
exactly like a cache miss for a page-fetch request, which still succeeds
with the fetched content. -/
theorem C10_cache_faults_degrade (now : Int) :
    (∀ (α : Type), get_from_cache now (CacheFile.absent : CacheFile α) =
      (none, CacheFile.absent)) ∧
    (∀ (α : Type), get_from_cache now (CacheFile.corrupt : CacheFile α) =
      (none, CacheFile.corrupt)) ∧
    (∀ (α : Type) (file : CacheFile α) (err : String),
      getFromCacheBody now file = Except.error err →
      get_from_cache now file = (none, file)) ∧
    (∀ (α : Type) (v : α) (file : CacheFile α),
      save_to_cache now v false file = file) ∧
    (∀ (content : String) (writeOk : Bool) (info : Cand),
      (fetch_page_content now (Except.ok content) writeOk info
          CacheFile.corrupt).contentSection =
        (fetch_page_content now (Except.ok content) writeOk info
          CacheFile.absent).contentSection ∧
      (fetch_page_content now (Except.ok content) writeOk info
          CacheFile.corrupt).contentSection =
        (if info.curl = "" then "" else mkSection info.ptype content)) := by
  refine ⟨fun α => rfl, fun α => rfl, ?_, ?_, ?_⟩
  · intro α file err h
    unfold get_from_cache
    rw [h]
  · intro α v file
    rfl
  · intro content writeOk info
    by_cases hc : info.curl = ""
    · unfold fetch_page_content
      rw [if_pos hc, if_pos hc, if_pos hc]
      exact ⟨rfl, rfl⟩
    · unfold fetch_page_content
      rw [if_neg hc, if_neg hc, if_neg hc]
      exact ⟨rfl, rfl⟩

theorem C10_cache_faults_degrade_witness :
    get_from_cache 7 (CacheFile.corrupt : CacheFile String) =
      (none, CacheFile.corrupt) ∧
    save_to_cache 7 "v" false (CacheFile.entry 3 "old") =
      CacheFile.entry 3 "old" ∧
    (fetch_page_content 7 (Except.ok "text") true
        (⟨"about page", "https://x.com/a"⟩ : Cand)
        CacheFile.corrupt).contentSection =
      mkSection "about page" "text" :=
  ⟨(C10_cache_faults_degrade 7).2.1 String,
   (C10_cache_faults_degrade 7).2.2.2.1 String "v" (CacheFile.entry 3 "old"),
   by
    have h := ((C10_cache_faults_degrade 7).2.2.2.2 "text" true
      ⟨"about page", "https://x.com/a"⟩).2
    rw [if_neg (by decide)] at h
    exact h⟩

/-- C9: a fetched page whose extracted text is the empty string defeats
the cache: the empty payload is stored, but a later request within TTL
treats the cached empty string as a miss (`if cached_content:` is falsy),
fetches again and re-stores — in `fetch_page_content` and in the seed
-page block of `get_company_intel_user_prompt` alike. -/
theorem C9_empty_payload_not_cached (url ptype : String) (ts now now2 : Int)
    (hurl : url ≠ "") (hfresh : now2 - ts < CACHE_TTL) :
    (fetch_page_content now (Except.ok "") true ⟨ptype, url⟩
        CacheFile.absent).file = CacheFile.entry now "" ∧
    (fetch_page_content now (Except.ok "") true ⟨ptype, url⟩
        CacheFile.absent).fetched = true ∧
    (fetch_page_content now2 (Except.ok "") true ⟨ptype, url⟩
        (CacheFile.entry ts "")).fetched = true ∧
    (fetch_page_content now2 (Except.ok "") true ⟨ptype, url⟩
        (CacheFile.entry ts "")).file = CacheFile.entry now2 "" ∧
    (seedPageStep now2 (Except.ok "") true (CacheFile.entry ts "")).fetched
        = true ∧
    (seedPageStep now2 (Except.ok "") true (CacheFile.entry ts "")).file
        = CacheFile.entry now2 "" := by
  have hget : get_from_cache now2 (CacheFile.entry ts ("" : String)) =
      (some "", CacheFile.entry ts "") := by
    simp only [get_from_cache, getFromCacheBody]
    rw [if_pos hfresh]
  refine ⟨?_, ?_, ?_, ?_, ?_, ?_⟩
  · unfold fetch_page_content
    rw [if_neg hurl]
    rfl
  · unfold fetch_page_content
    rw [if_neg hurl]
    rfl
  · unfold fetch_page_content
    rw [if_neg hurl, hget]
    rfl
  · unfold fetch_page_content
    rw [if_neg hurl, hget]
    rfl
  · unfold seedPageStep
    rw [hget]
    rfl
  · unfold seedPageStep
    rw [hget]
    rfl

theorem C9_empty_payload_not_cached_witness :
    (fetch_page_content 5 (Except.ok "") true
        ⟨"about page", "https://x.com/a"⟩ CacheFile.absent).file =
      CacheFile.entry 5 "" ∧
    (fetch_page_content 10 (Except.ok "") true
        ⟨"about page", "https://x.com/a"⟩ (CacheFile.entry 5 "")).fetched
        = true ∧
    (seedPageStep 10 (Except.ok "") true (CacheFile.entry 5 "")).fetched
        = true := by
  have h := C9_empty_payload_not_cached "https://x.com/a" "about page" 5 5 10
    (by decide) (by decide)
  exact ⟨h.1, h.2.2.1, h.2.2.2.2.1⟩



/-- C5: `fetch_with_retry` calls the fetcher at most `maxRetries`
(default 3) times, sleeps `backoff ^ attemptIndex` seconds after each
failed non-final attempt (waits monotonically non-decreasing when
`backoff ≥ 1`), and when every attempt fails it re-raises the final
attempt's failure unchanged. -/
theorem C5_retry_backoff (fetcher : Nat → Except String String)
    (url : String) (maxRetries : Nat) (backoff : ℚ) :
    (fetch_with_retry fetcher url maxRetries backoff).2.1 ≤ maxRetries ∧
    (fetch_with_retry fetcher url maxRetries backoff).2.2.length =
      (fetch_with_retry fetcher url maxRetries backoff).2.1 - 1 ∧
    (∀ i (h : i < (fetch_with_retry fetcher url maxRetries backoff).2.2.length),
      (fetch_with_retry fetcher url maxRetries backoff).2.2.get ⟨i, h⟩ =
        backoff ^ i) ∧
    (1 ≤ backoff →
      (fetch_with_retry fetcher url maxRetries backoff).2.2.Chain' (· ≤ ·)) ∧
    ((∀ i, i < maxRetries → ∃ e, fetcher i = Except.error e) →
      1 ≤ maxRetries →
      (fetch_with_retry fetcher url maxRetries backoff).1 =
        fetcher (maxRetries - 1)) := by
  have hsleeps := fetchWithRetryGo_sleeps fetcher url maxRetries backoff
    maxRetries 0 (by omega)
  refine ⟨?_, ?_, ?_, ?_, ?_⟩
  · have := fetchWithRetryGo_calls_le fetcher url maxRetries backoff
      maxRetries 0 (by omega)
    unfold fetch_with_retry
    omega
  · unfold fetch_with_retry at hsleeps ⊢
    rw [hsleeps, List.length_map, List.length_range']
  · intro i h
    unfold fetch_with_retry at hsleeps ⊢
    rw [List.get_eq_getElem]
    simp only [hsleeps, List.getElem_map, List.getElem_range'_1, Nat.zero_add]
  · intro hb
    unfold fetch_with_retry at hsleeps ⊢
    rw [hsleeps]
    refine List.Pairwise.chain' ?_
    rw [List.pairwise_map]
    have hpw : (List.range' 0
        ((fetchWithRetryGo fetcher url maxRetries backoff 0).2.1 - 1)).Pairwise
        (· < ·) := by
      rw [← List.range_eq_range']
      exact List.pairwise_lt_range _
    exact hpw.imp fun hlt => pow_le_pow_right₀ hb (le_of_lt hlt)
  · intro hall hpos
    unfold fetch_with_retry
    exact fetchWithRetryGo_final_error fetcher url maxRetries backoff hall
      maxRetries 0 (by omega) (by omega)

/-- A fetcher that fails on every attempt, for the C5 witness. -/
def alwaysFailFetcher : Nat → Except String String :=
  fun _ => Except.error "boom"

theorem C5_retry_backoff_witness :
    (fetch_with_retry alwaysFailFetcher "https://x.com" 3 2).2.1 ≤ 3 ∧
    (fetch_with_retry alwaysFailFetcher "https://x.com" 3 2).2.2.Chain'
      (· ≤ ·) ∧
    (fetch_with_retry alwaysFailFetcher "https://x.com" 3 2).1 =
      Except.error "boom" := by
  have h := C5_retry_backoff alwaysFailFetcher "https://x.com" 3 2
  refine ⟨h.1, h.2.2.2.1 (by norm_num), ?_⟩
  have h5 := h.2.2.2.2 (fun i _ => ⟨"boom", rfl⟩) (by omega)
  rw [h5]
  rfl

/-- C3: every URL returned by the link extractor has scheme http or https
and host exactly the seed page's host, and the returned list is
duplicate-free in first-seen order of the links on the page. -/
theorem C3_link_extractor_same_host (parse : String → UrlParts)
    (ujoin : String → String → String) (url : String) (hrefs : List String) :
    fetch_website_links parse ujoin url (HttpOutcome.ok hrefs) =
      Except.ok (collectLinks parse ujoin url hrefs) ∧
    (∀ u ∈ collectLinks parse ujoin url hrefs,
      ((parse u).scheme = "http" ∨ (parse u).scheme = "https") ∧
      (parse u).netloc = (parse url).netloc) ∧
    (collectLinks parse ujoin url hrefs).Nodup ∧
    (∀ u, u ∈ collectLinks parse ujoin url hrefs ↔
      u ∈ sameHostLinks parse ujoin url hrefs) ∧
    (collectLinks parse ujoin url hrefs).Sublist
      (sameHostLinks parse ujoin url hrefs) ∧
    (collectLinks parse ujoin url hrefs).Pairwise (fun a b =>
      (sameHostLinks parse ujoin url hrefs).indexOf a <
      (sameHostLinks parse ujoin url hrefs).indexOf b) := by
  refine ⟨rfl, ?_, dedupFirstGo_nodup _ _, ?_, dedupFirstGo_sublist _ _,
    dedupFirstGo_pairwise_indexOf _ _⟩
  · intro u hu
    have hmem : u ∈ sameHostLinks parse ujoin url hrefs :=
      (mem_dedupFirstGo hu).1
    unfold sameHostLinks at hmem
    rw [List.mem_filter] at hmem
    have hp := hmem.2
    rw [Bool.and_eq_true, Bool.or_eq_true, beq_iff_eq, beq_iff_eq, beq_iff_eq]
      at hp
    exact ⟨hp.1, hp.2⟩
  · intro u
    constructor
    · exact fun hu => (mem_dedupFirstGo hu).1
    · intro hu
      exact mem_dedupFirstGo_of_mem hu (by simp)

/-- Toy `urlparse` for the C3 witness. -/
def parseW (s : String) : UrlParts :=
  if pyStartsWith s "https://x.com" then ⟨"https", "x.com"⟩
  else ⟨"ftp", "elsewhere"⟩

/-- Toy `urljoin` for the C3 witness. -/
def ujoinW (_base h : String) : String := h

theorem C3_link_extractor_same_host_witness :
    ((parseW "https://x.com/a").scheme = "http" ∨
      (parseW "https://x.com/a").scheme = "https") ∧
    (parseW "https://x.com/a").netloc = (parseW "https://x.com").netloc ∧
    (collectLinks parseW ujoinW "https://x.com"
      ["https://x.com/a", "https://x.com/a", "ftp://y.org/b"]).Nodup := by
  have h := C3_link_extractor_same_host parseW ujoinW "https://x.com"
    ["https://x.com/a", "https://x.com/a", "ftp://y.org/b"]
  have hmem := h.2.1 "https://x.com/a" (by decide)
  exact ⟨hmem.1, hmem.2, h.2.2.1⟩



/-- Executable check for "no two adjacent spaces". -/
def noSSb : List Char → Bool
  | [] => true
  | [_] => true
  | a :: b :: rest => !(a = ' ' && b = ' ') && noSSb (b :: rest)

theorem chain'_of_noSSb : ∀ l, noSSb l = true → List.Chain' nonSS l := by
  intro l
  induction l using noSSb.induct with
  | case1 => intro _; simp
  | case2 a => intro _; simp
  | case3 a b rest ih =>
    intro h
    rw [noSSb, Bool.and_eq_true] at h
    refine List.chain'_cons.2 ⟨?_, ih h.2⟩
    intro ⟨h1, h2⟩
    rw [h1, h2] at h
    simpa using h.1

/-- The final output of the Fetcher cleanup also has no two adjacent
spaces and no line break after truncation: the truncated part is a prefix
of the cleaned text and the appended marker starts with `'.'`. -/
theorem truncateL_chain (text : List Char) :
    List.Chain' nonSS (truncateL (cleanupTextL text)) ∧
    (∀ c ∈ truncateL (cleanupTextL text), isLineBreak c = false) := by
  have hchain := cleanupTextL_chain text
  have hlb := cleanupTextL_no_linebreak text
  unfold truncateL
  by_cases h : MAX_CONTENT_LENGTH < (cleanupTextL text).length
  · rw [if_pos h]
    constructor
    · refine List.chain'_append.2 ⟨?_, ?_, ?_⟩
      · exact hchain.prefix (List.take_prefix _ _)
      · exact chain'_of_noSSb _ (by decide)
      · intro x _ y hy
        simp only [show TRUNC_MARKER.data.head? = some '.' from rfl,
          Option.mem_def, Option.some.injEq] at hy
        subst hy
        intro ⟨_, hdot⟩
        exact absurd hdot (by decide)
    · intro c hc
      rcases List.mem_append.1 hc with hc1 | hc1
      · exact hlb c ((List.take_prefix _ _).subset hc1)
      · have hm : ∀ c ∈ TRUNC_MARKER.data, isLineBreak c = false := by decide
        exact hm c hc1
  · rw [if_neg h]
    exact ⟨hchain, hlb⟩

/-- C7 counterexample: the claim says the Fetcher "collapses internal
whitespace to single spaces", but a tab between two words survives the
cleanup untouched: on the page text `"a\tb"` the returned content still
contains the whitespace character `'\t' ≠ ' '`.  (The cleanup only splits
at line breaks and at two-space runs.) -/
theorem C7_counterexample :
    fetch_website_contents "https://x.com" (HttpOutcome.ok "a\tb") =
      Except.ok "a\tb" ∧
    '\t' ∈ "a\tb".data ∧ pyIsSpace '\t' = true ∧ '\t' ≠ ' ' := by
  exact ⟨rfl, by decide, by decide, by decide⟩

/-- C7 (amended): the cleanup collapses line breaks and runs of spaces —
the returned text contains no line-break character and no two adjacent
spaces (other intra-phrase whitespace such as tabs is preserved) — and
the cleaned text is truncated to the 50000-character bound with the
truncation marker appended exactly when the bound is exceeded, so the
returned length is at most 50000 plus the marker's length. -/
theorem C7_cleanup_truncation (url text : String) :
    ∃ out, fetch_website_contents url (HttpOutcome.ok text) = Except.ok out ∧
      List.Chain' nonSS out.data ∧
      (∀ c ∈ out.data, isLineBreak c = false) ∧
      out.data.length ≤ MAX_CONTENT_LENGTH + TRUNC_MARKER.data.length ∧
      ((cleanupTextL text.data).length ≤ MAX_CONTENT_LENGTH →
        out.data = cleanupTextL text.data) ∧
      (MAX_CONTENT_LENGTH < (cleanupTextL text.data).length →
        out.data = (cleanupTextL text.data).take MAX_CONTENT_LENGTH ++
          TRUNC_MARKER.data ∧
        out.data.length = MAX_CONTENT_LENGTH + TRUNC_MARKER.data.length) := by
  refine ⟨cleanAndTruncate text, rfl, ?_, ?_, ?_, ?_, ?_⟩
  · exact (truncateL_chain text.data).1
  · exact (truncateL_chain text.data).2
  · exact (truncateL_spec (cleanupTextL text.data)).1
  · intro h
    exact (truncateL_spec (cleanupTextL text.data)).2.1 h
  · intro h
    exact (truncateL_spec (cleanupTextL text.data)).2.2 h

theorem C7_cleanup_truncation_witness :
    ∃ out, fetch_website_contents "https://x.com"
        (HttpOutcome.ok "hello  world\nbye") = Except.ok out ∧
      List.Chain' nonSS out.data ∧
      out.data = cleanupTextL "hello  world\nbye".data := by
  obtain ⟨out, h1, h2, _, _, h5, _⟩ :=
    C7_cleanup_truncation "https://x.com" "hello  world\nbye"
  exact ⟨out, h1, h2, h5 (by decide)⟩



/-- Two appended lists differ whenever their prefixes differ at a common
index. -/
theorem append_ne_of_getElem_ne (i : Nat) (c1 c2 : Char)
    {p q u v : List Char} (h1 : p[i]? = some c1) (h2 : q[i]? = some c2)
    (hne : c1 ≠ c2) : p ++ u ≠ q ++ v := by
  intro heq
  have hg := congrArg (fun l => l[i]?) heq
  simp only [] at hg
  have hp : i < p.length := (List.getElem?_eq_some.1 h1).1
  have hq : i < q.length := (List.getElem?_eq_some.1 h2).1
  rw [List.getElem?_append, if_pos hp, List.getElem?_append, if_pos hq,
    h1, h2] at hg
  exact hne (Option.some.inj hg)

/-- C8: a failure of the link extractor (`fetch_website_links`)
propagates as an error value distinct from any Fetcher
(`fetch_website_contents`) failure for the same URL — the extractor's
messages all contain the extra `"links from "` segment — and the caller
(`filter_relevant_links`) maps an extractor failure to the empty link
list instead of aborting. -/
theorem C8_distinct_error_kinds :
    (∀ (parse : String → UrlParts) (ujoin : String → String → String)
      (url : String) (o1 : HttpOutcome (List String))
      (o2 : HttpOutcome String) (e1 e2 : String),
      fetch_website_links parse ujoin url o1 = Except.error e1 →
      fetch_website_contents url o2 = Except.error e2 → e1 ≠ e2) ∧
    (∀ err : String,
      filter_relevant_links none (Except.error err) = ⟨[]⟩) := by
  constructor
  · intro parse ujoin url o1 o2 e1 e2 h1 h2
    cases o1 with
    | ok payload =>
      simp only [fetch_website_links] at h1
      exact Except.noConfusion h1
    | timeout =>
      simp only [fetch_website_links, Except.error.injEq] at h1
      subst h1
      cases o2 with
      | ok t =>
        simp only [fetch_website_contents] at h2
        exact Except.noConfusion h2
      | timeout =>
        simp only [fetch_website_contents, Except.error.injEq] at h2
        subst h2
        intro heq
        have hd := congrArg String.data heq
        simp only [String.data_append] at hd
        rw [show ['T', 'i', 'm', 'e', 'o', 'u', 't', ' ', 'f', 'e', 't', 'c',
            'h', 'i', 'n', 'g', ' ', 'l', 'i', 'n', 'k', 's', ' ', 'f', 'r',
            'o', 'm', ' '] =
          ['T', 'i', 'm', 'e', 'o', 'u', 't', ' ', 'f', 'e', 't', 'c', 'h',
            'i', 'n', 'g', ' '] ++ "links from ".data from by decide,
          List.append_assoc] at hd
        exact ne_self_append (by decide) (List.append_cancel_left hd)
      | requestErr m2 =>
        simp only [fetch_website_contents, Except.error.injEq] at h2
        subst h2
        intro heq
        have hd := congrArg String.data heq
        simp only [String.data_append, List.append_assoc] at hd
        exact append_ne_of_getElem_ne 0 'T' 'E' (by decide) (by decide)
          (by decide) hd
      | parseErr m2 =>
        simp only [fetch_website_contents, Except.error.injEq] at h2
        subst h2
        intro heq
        have hd := congrArg String.data heq
        simp only [String.data_append, List.append_assoc] at hd
        exact append_ne_of_getElem_ne 0 'T' 'E' (by decide) (by decide)
          (by decide) hd
    | requestErr m1 =>
      simp only [fetch_website_links, Except.error.injEq] at h1
      subst h1
      cases o2 with
      | ok t =>
        simp only [fetch_website_contents] at h2
        exact Except.noConfusion h2
      | timeout =>
        simp only [fetch_website_contents, Except.error.injEq] at h2
        subst h2
        intro heq
        have hd := congrArg String.data heq
        simp only [String.data_append, List.append_assoc] at hd
        exact append_ne_of_getElem_ne 0 'E' 'T' (by decide) (by decide)
          (by decide) hd
      | requestErr m2 =>
        simp only [fetch_website_contents, Except.error.injEq] at h2
        subst h2
        intro heq
        have hd := congrArg String.data heq
        simp only [String.data_append, List.append_assoc] at hd
        rw [show ['E', 'r', 'r', 'o', 'r', ' ', 'f', 'e', 't', 'c', 'h', 'i',
            'n', 'g', ' ', 'l', 'i', 'n', 'k', 's', ' ', 'f', 'r', 'o', 'm',
            ' '] =
          ['E', 'r', 'r', 'o', 'r', ' ', 'f', 'e', 't', 'c', 'h', 'i', 'n',
            'g', ' '] ++ "links from ".data from by decide,
          List.append_assoc] at hd
        exact noShiftL url.data.length url.data m1.data m2.data le_rfl
          (List.append_cancel_left hd)
      | parseErr m2 =>
        simp only [fetch_website_contents, Except.error.injEq] at h2
        subst h2
        intro heq
        have hd := congrArg String.data heq
        simp only [String.data_append, List.append_assoc] at hd
        exact append_ne_of_getElem_ne 6 'f' 'p' (by decide) (by decide)
          (by decide) hd
    | parseErr m1 =>
      simp only [fetch_website_links, Except.error.injEq] at h1
      subst h1
      cases o2 with
      | ok t =>
        simp only [fetch_website_contents] at h2
        exact Except.noConfusion h2
      | timeout =>
        simp only [fetch_website_contents, Except.error.injEq] at h2
        subst h2
        intro heq
        have hd := congrArg String.data heq
        simp only [String.data_append, List.append_assoc] at hd
        exact append_ne_of_getElem_ne 0 'E' 'T' (by decide) (by decide)
          (by decide) hd
      | requestErr m2 =>
        simp only [fetch_website_contents, Except.error.injEq] at h2
        subst h2
        intro heq
        have hd := congrArg String.data heq
        simp only [String.data_append, List.append_assoc] at hd
        exact append_ne_of_getElem_ne 6 'p' 'f' (by decide) (by decide)
          (by decide) hd
      | parseErr m2 =>
        simp only [fetch_website_contents, Except.error.injEq] at h2
        subst h2
        intro heq
        have hd := congrArg String.data heq
        simp only [String.data_append, List.append_assoc] at hd
        rw [show ['E', 'r', 'r', 'o', 'r', ' ', 'p', 'a', 'r', 's', 'i', 'n',
            'g', ' ', 'l', 'i', 'n', 'k', 's', ' ', 'f', 'r', 'o', 'm', ' '] =
          ['E', 'r', 'r', 'o', 'r', ' ', 'p', 'a', 'r', 's', 'i', 'n', 'g',
            ' '] ++ "links from ".data from by decide,
          List.append_assoc] at hd
        exact noShiftL url.data.length url.data m1.data m2.data le_rfl
          (List.append_cancel_left hd)
  · intro err
    rfl

theorem C8_distinct_error_kinds_witness :
    "Timeout fetching links from https://x.com" ≠
      "Timeout fetching https://x.com" ∧
    filter_relevant_links none (Except.error "boom") = ⟨[]⟩ := by
  constructor
  · exact C8_distinct_error_kinds.1 (fun _ => ⟨"", ""⟩) (fun _ h => h)
      "https://x.com" HttpOutcome.timeout HttpOutcome.timeout _ _ rfl rfl
  · exact C8_distinct_error_kinds.2 "boom"



/-- A link that matches both the about and the news patterns. -/
def cexLinkA : String := "https://x.com/about/blog"

/-- A later link that matches only the news pattern. -/
def cexLinkB : String := "https://x.com/press"

/-- C2 counterexample: the claim says the candidate kept for a category
is "the first link in extractor order that matches that category's
pattern".  On `[cexLinkA, cexLinkB]` the first link matching the news
pattern is `cexLinkA` (it contains `/blog`), but `cexLinkA` is consumed
by the about category (first matching unseen category wins per link), so
the news candidate actually kept is `cexLinkB ≠ cexLinkA`. -/
theorem C2_counterexample :
    filterRelevantCore [cexLinkA, cexLinkB] =
      [⟨"about page", cexLinkA⟩, ⟨"news page", cexLinkB⟩] ∧
    ("news", ["news", "blog", "press", "media", "newsroom", "insights"]) ∈
      RELEVANT_LINK_PATTERNS ∧
    patMatches ["news", "blog", "press", "media", "newsroom", "insights"]
      (pyLower cexLinkA) = true ∧
    cexLinkB ≠ cexLinkA := by
  exact ⟨by decide, by decide, by decide, by decide⟩

/-- C2 (amended): the filter keeps at most 5 candidates, at most one per
category, each kept candidate is a non-deny-listed input link matching
its category's pattern, and first-match discipline holds in the form the
code implements: every earlier non-deny-listed link matching a kept
category's pattern was itself kept, for a category strictly earlier in
the table (each link is assigned its first matching not-yet-taken
category, so later matches for an already-seen category are ignored). -/
theorem C2_filter_caps_and_first_match (links : List String) :
    (filterRelevantCore links).length ≤ 5 ∧
    ((filterRelevantCore links).map Cand.ptype).Nodup ∧
    (∀ cd ∈ filterRelevantCore links, ∃ cat kws,
      (cat, kws) ∈ RELEVANT_LINK_PATTERNS ∧ cd.ptype = cat ++ " page" ∧
      cd.curl ∈ links ∧ isSkipped (pyLower cd.curl) = false ∧
      patMatches kws (pyLower cd.curl) = true) ∧
    (∀ cd cat kws, cd ∈ filterRelevantCore links →
      (cat, kws) ∈ RELEVANT_LINK_PATTERNS → cd.ptype = cat ++ " page" →
      ∃ l1 l2, links = l1 ++ cd.curl :: l2 ∧
        ∀ v ∈ l1, isSkipped (pyLower v) = false →
          patMatches kws (pyLower v) = true →
          ∃ cd2 cat2 kws2, cd2 ∈ filterRelevantCore links ∧ cd2.curl = v ∧
            (cat2, kws2) ∈ RELEVANT_LINK_PATTERNS ∧
            cd2.ptype = cat2 ++ " page" ∧ tblIdx cat2 < tblIdx cat) := by
  obtain ⟨t, cats, heq, hmap, hnd, _, hsound⟩ := filterGo_extension links [] []
  have hout : filterRelevantCore links = t := by
    unfold filterRelevantCore
    rw [heq, List.nil_append]
  refine ⟨?_, ?_, ?_, ?_⟩
  · exact filterGo_length_le links [] [] (by simp)
  · rw [hout, hmap]
    refine hnd.map ?_
    intro a b hab
    exact appendPageInj hab
  · intro cd hcd
    rw [hout] at hcd
    exact hsound cd hcd
  · intro cd cat kws hcd hrow hptype
    exact filterGo_first links [] [] cd cat kws hcd (by simp) hrow hptype

/-- The end-to-end example of spec §8. -/
def exampleLinks : List String :=
  ["https://example.com/about-us", "https://example.com/careers",
   "https://example.com/login", "https://example.com/#top"]

theorem C2_filter_caps_and_first_match_witness :
    (filterRelevantCore exampleLinks).length ≤ 5 ∧
    ((filterRelevantCore exampleLinks).map Cand.ptype).Nodup ∧
    (∃ cat kws, (cat, kws) ∈ RELEVANT_LINK_PATTERNS ∧
      (⟨"careers page", "https://example.com/careers"⟩ : Cand).ptype =
        cat ++ " page" ∧
      (⟨"careers page", "https://example.com/careers"⟩ : Cand).curl ∈
        exampleLinks ∧
      isSkipped (pyLower
        (⟨"careers page", "https://example.com/careers"⟩ : Cand).curl) =
        false ∧
      patMatches kws (pyLower
        (⟨"careers page", "https://example.com/careers"⟩ : Cand).curl) =
        true) :=
  ⟨(C2_filter_caps_and_first_match exampleLinks).1,
   (C2_filter_caps_and_first_match exampleLinks).2.1,
   (C2_filter_caps_and_first_match exampleLinks).2.2.1 _ (by decide)⟩



theorem mkSection_ne_empty (ptype content : String) :
    mkSection ptype content ≠ "" := by
  intro h
  have hd := congrArg String.data h
  unfold mkSection at hd
  simp only [String.data_append] at hd
  exact absurd hd (by simp)

/-- Skipping the empty results of a map is the same as mapping over the
non-`bad` inputs, when exactly the `bad` input produces `""`. -/
theorem filter_map_single_bad {α : Type} [DecidableEq α]
    (l : List α) (f : α → String) (bad : α) (hfbad : f bad = "")
    (hgood : ∀ i ∈ l, i ≠ bad → f i ≠ "") :
    (l.map f).filter (fun sec => sec ≠ "") =
      (l.filter (fun i => i ≠ bad)).map f := by
  induction l with
  | nil => rfl
  | cons a as ih =>
    have ihr := ih fun i hi hne => hgood i (List.mem_cons_of_mem _ hi) hne
    by_cases ha : a = bad
    · subst ha
      simp only [List.map_cons, List.filter_cons, hfbad]
      rw [if_neg (by simp), if_neg (by simp)]
      exact ihr
    · have hane : f a ≠ "" := hgood a (List.mem_cons_self _ _) ha
      simp only [List.map_cons, List.filter_cons]
      rw [if_pos (by simpa using hane), if_pos (by simpa using ha),
        List.map_cons]
      rw [ihr]

/-- C6: one failing candidate fetch yields an empty content section for
that candidate only: the harvested section list is exactly the sections
of the other candidates, the assembled payload omits only the failed
category's section, and the request as a whole still succeeds. -/
theorem C6_single_failure_isolated (company_name : String) (now : Int)
    (seedFetch : Except String String) (seedFile : CacheFile String)
    (linkCache : Option LinksResult)
    (extractorRes : Except String (List String))
    (files : String → CacheFile String)
    (fetcher : String → Except String String) (writeOk : Bool)
    (completionOrder : List Cand) (bad : Cand) (e : String)
    (hbadfetch : fetcher bad.curl = Except.error e)
    (hbadcache : (get_from_cache now (files bad.curl)).1 = none ∨
      (get_from_cache now (files bad.curl)).1 = some "")
    (hgood : ∀ i ∈ completionOrder, i ≠ bad → i.curl ≠ "" ∧
      ((∃ c, (get_from_cache now (files i.curl)).1 = some c ∧ c ≠ "") ∨
       (∃ str, fetcher i.curl = Except.ok str))) :
    (fetch_page_content now (fetcher bad.curl) writeOk bad
      (files bad.curl)).contentSection = "" ∧
    harvestSections now files fetcher writeOk completionOrder =
      (completionOrder.filter (fun i => i ≠ bad)).map (fun i =>
        (fetch_page_content now (fetcher i.curl) writeOk i
          (files i.curl)).contentSection) ∧
    (0 < (filter_relevant_links linkCache extractorRes).links.length →
      get_company_intel_user_prompt company_name now seedFetch seedFile
          linkCache extractorRes files fetcher writeOk completionOrder =
        USER_PROMPT_HEAD company_name ++
          (seedPageStep now seedFetch writeOk seedFile).text ++
          "\n\n## ADDITIONAL RELEVANT PAGES:\n" ++
          String.join ((completionOrder.filter (fun i => i ≠ bad)).map
            (fun i => (fetch_page_content now (fetcher i.curl) writeOk i
              (files i.curl)).contentSection))) := by
  have hbadsec : (fetch_page_content now (fetcher bad.curl) writeOk bad
      (files bad.curl)).contentSection = "" := by
    unfold fetch_page_content
    by_cases hc : bad.curl = ""
    · rw [if_pos hc]
    · rw [if_neg hc, hbadfetch]
      rcases hbadcache with hb | hb
      · rw [hb]
        rfl
      · rw [hb]
        rfl
  have hsecs : harvestSections now files fetcher writeOk completionOrder =
      (completionOrder.filter (fun i => i ≠ bad)).map (fun i =>
        (fetch_page_content now (fetcher i.curl) writeOk i
          (files i.curl)).contentSection) := by
    unfold harvestSections
    refine filter_map_single_bad completionOrder _ bad hbadsec ?_
    intro i hi hne
    obtain ⟨hcurl, hok⟩ := hgood i hi hne
    unfold fetch_page_content
    rw [if_neg hcurl]
    cases hg : (get_from_cache now (files i.curl)).1 with
    | some c =>
      simp only []
      by_cases hcne : c ≠ ""
      · rw [if_pos hcne]
        exact mkSection_ne_empty _ _
      · rw [if_neg hcne]
        rcases hok with ⟨c2, hc2, hc2ne⟩ | ⟨str, hstr⟩
        · rw [hg] at hc2
          obtain rfl := Option.some.inj hc2
          exact absurd hc2ne hcne
        · unfold fetchPageMiss
          rw [hstr]
          exact mkSection_ne_empty _ _
    | none =>
      rcases hok with ⟨c2, hc2, hc2ne⟩ | ⟨str, hstr⟩
      · rw [hg] at hc2
        exact Option.noConfusion hc2
      · unfold fetchPageMiss
        rw [hstr]
        exact mkSection_ne_empty _ _
  refine ⟨hbadsec, hsecs, ?_⟩
  intro hlinks
  unfold get_company_intel_user_prompt
  rw [if_pos hlinks, hsecs, String.append_assoc]

theorem C6_single_failure_isolated_witness :
    (fetch_page_content 3
        (Except.error "Timeout fetching https://x.com/bad") true
        (⟨"news page", "https://x.com/bad"⟩ : Cand)
        CacheFile.absent).contentSection = "" ∧
    harvestSections 3 (fun _ => CacheFile.absent)
        (fun u => if u = "https://x.com/bad"
          then Except.error ("Timeout fetching " ++ u)
          else Except.ok "some text") true
        [⟨"about page", "https://x.com/a"⟩,
         ⟨"news page", "https://x.com/bad"⟩] =
      [(fetch_page_content 3 (Except.ok "some text") true
          (⟨"about page", "https://x.com/a"⟩ : Cand)
          CacheFile.absent).contentSection] := by
  have h := C6_single_failure_isolated "Acme" 3 (Except.ok "seed")
    CacheFile.absent none (Except.error "no links")
    (fun _ => CacheFile.absent)
    (fun u => if u = "https://x.com/bad"
      then Except.error ("Timeout fetching " ++ u)
      else Except.ok "some text") true
    [⟨"about page", "https://x.com/a"⟩, ⟨"news page", "https://x.com/bad"⟩]
    ⟨"news page", "https://x.com/bad"⟩ "Timeout fetching https://x.com/bad"
    rfl (Or.inl rfl) ?_
  · refine ⟨?_, ?_⟩
    · have h1 := h.1
      rw [show (fun u => if u = "https://x.com/bad"
          then Except.error ("Timeout fetching " ++ u)
          else Except.ok "some text")
            (Cand.curl ⟨"news page", "https://x.com/bad"⟩) =
          Except.error "Timeout fetching https://x.com/bad" from rfl]
        at h1
      exact h1
    · have h2 := h.2.1
      rw [h2]
      rfl
  · intro i hi hne
    have hi2 : i = (⟨"about page", "https://x.com/a"⟩ : Cand) ∨
        i = (⟨"news page", "https://x.com/bad"⟩ : Cand) := by
      simpa using hi
    rcases hi2 with rfl | rfl
    · exact ⟨by decide, Or.inr ⟨"some text", rfl⟩⟩
    · exact absurd rfl hne



theorem gci_trace (e : IntelEnv) (t : Trace) :
    (get_company_intel e t).2 =
      match e.cachedReport with
      | some _ => t
      | none => { t with
          promptBuilds := t.promptBuilds + 1,
          llmCalls := t.llmCalls + 1,
          llmInputs := t.llmInputs ++ [e.buildPrompt ()] } := by
  unfold get_company_intel
  cases e.cachedReport with
  | some rm => rfl
  | none =>
    cases e.llm COMPANY_INTEL_SYSTEM_PROMPT (e.buildPrompt ()) <;> rfl

theorem grh_trace (mdToHtml : String → String) (fmtStats : Metadata → String)
    (e : IntelEnv) (company_name url : String) (t : Trace) :
    (generate_report_html mdToHtml fmtStats e company_name url t).2 =
      if company_name = "" ∨ url = "" then t
      else if ¬ (pyStartsWith url "http://" || pyStartsWith url "https://")
      then t
      else (get_company_intel e t).2 := by
  unfold generate_report_html
  by_cases h1 : company_name = "" ∨ url = ""
  · rw [if_pos h1, if_pos h1]
  · rw [if_neg h1, if_neg h1]
    by_cases h2 : ¬ (pyStartsWith url "http://" || pyStartsWith url "https://")
    · rw [if_pos h2, if_pos h2]
    · rw [if_neg h2, if_neg h2]

theorem grwd_char (mdToHtml : String → String) (fmtStats : Metadata → String)
    (e : IntelEnv) (pdfConv : String → Except String String)
    (company_name url : String) (t : Trace) :
    (generate_report_with_download mdToHtml fmtStats e pdfConv company_name
        url t).1.1 =
      (generate_report_html mdToHtml fmtStats e company_name url t).1.1 ∧
    ((generate_report_with_download mdToHtml fmtStats e pdfConv company_name
        url t).2 =
      (generate_report_html mdToHtml fmtStats e company_name url t).2 ∨
     (generate_report_with_download mdToHtml fmtStats e pdfConv company_name
        url t).2 =
      { (generate_report_html mdToHtml fmtStats e company_name url t).2 with
          pdfSources :=
            (generate_report_html mdToHtml fmtStats e company_name
              url t).2.pdfSources ++
            [(generate_report_html mdToHtml fmtStats e company_name
              url t).1.1] }) := by
  unfold generate_report_with_download
  by_cases hmk : (containsSubStr "Error Generating Report"
      (generate_report_html mdToHtml fmtStats e company_name url t).1.1 ||
    containsSubStr "Please provide both"
      (generate_report_html mdToHtml fmtStats e company_name url t).1.1) = true
  · rw [if_pos hmk]
    exact ⟨rfl, Or.inl rfl⟩
  · rw [if_neg hmk]
    cases pdfConv
        (generate_report_html mdToHtml fmtStats e company_name url t).1.1 with
    | ok path => exact ⟨rfl, Or.inr rfl⟩
    | error err => exact ⟨rfl, Or.inr rfl⟩

/-- C1: one invocation of `generate_report_with_download` builds the user
prompt at most once and calls the summarizer at most once (exactly once
on the uncached valid-input path); the summarizer receives exactly the
once-built prompt, and the PDF converter is handed at most one markup
string — the very markup the invocation returns, never a regenerated
one. -/
theorem C1_single_generation (mdToHtml : String → String)
    (fmtStats : Metadata → String) (e : IntelEnv)
    (pdfConv : String → Except String String) (company_name url : String) :
    (generate_report_with_download mdToHtml fmtStats e pdfConv company_name
      url Trace.start).2.promptBuilds ≤ 1 ∧
    (generate_report_with_download mdToHtml fmtStats e pdfConv company_name
      url Trace.start).2.llmCalls ≤ 1 ∧
    (generate_report_with_download mdToHtml fmtStats e pdfConv company_name
      url Trace.start).2.llmInputs =
      List.replicate (generate_report_with_download mdToHtml fmtStats e
        pdfConv company_name url Trace.start).2.llmCalls (e.buildPrompt ()) ∧
    (∀ s ∈ (generate_report_with_download mdToHtml fmtStats e pdfConv
        company_name url Trace.start).2.pdfSources,
      s = (generate_report_with_download mdToHtml fmtStats e pdfConv
        company_name url Trace.start).1.1) ∧
    (generate_report_with_download mdToHtml fmtStats e pdfConv company_name
      url Trace.start).2.pdfSources.length ≤ 1 ∧
    (e.cachedReport = none → ¬(company_name = "" ∨ url = "") →
      (pyStartsWith url "http://" || pyStartsWith url "https://") = true →
      (generate_report_with_download mdToHtml fmtStats e pdfConv company_name
        url Trace.start).2.promptBuilds = 1 ∧
      (generate_report_with_download mdToHtml fmtStats e pdfConv company_name
        url Trace.start).2.llmCalls = 1) := by
  obtain ⟨hR1, hR2⟩ :=
    grwd_char mdToHtml fmtStats e pdfConv company_name url Trace.start
  have hT := grh_trace mdToHtml fmtStats e company_name url Trace.start
  have hTfields :
      ((generate_report_html mdToHtml fmtStats e company_name
          url Trace.start).2.promptBuilds = 0 ∧
        (generate_report_html mdToHtml fmtStats e company_name
          url Trace.start).2.llmCalls = 0 ∧
        (generate_report_html mdToHtml fmtStats e company_name
          url Trace.start).2.llmInputs = [] ∧
        (generate_report_html mdToHtml fmtStats e company_name
          url Trace.start).2.pdfSources = []) ∨
      ((generate_report_html mdToHtml fmtStats e company_name
          url Trace.start).2.promptBuilds = 1 ∧
        (generate_report_html mdToHtml fmtStats e company_name
          url Trace.start).2.llmCalls = 1 ∧
        (generate_report_html mdToHtml fmtStats e company_name
          url Trace.start).2.llmInputs = [e.buildPrompt ()] ∧
        (generate_report_html mdToHtml fmtStats e company_name
          url Trace.start).2.pdfSources = []) := by
    rw [hT]
    by_cases h1 : company_name = "" ∨ url = ""
    · rw [if_pos h1]
      exact Or.inl ⟨rfl, rfl, rfl, rfl⟩
    · rw [if_neg h1]
      by_cases h2 : ¬ (pyStartsWith url "http://" ||
          pyStartsWith url "https://")
      · rw [if_pos h2]
        exact Or.inl ⟨rfl, rfl, rfl, rfl⟩
      · rw [if_neg h2]
        rw [gci_trace]
        cases e.cachedReport with
        | some rm => exact Or.inl ⟨rfl, rfl, rfl, rfl⟩
        | none => exact Or.inr ⟨rfl, rfl, rfl, rfl⟩
  have hTexact : e.cachedReport = none → ¬(company_name = "" ∨ url = "") →
      (pyStartsWith url "http://" || pyStartsWith url "https://") = true →
      (generate_report_html mdToHtml fmtStats e company_name
        url Trace.start).2.promptBuilds = 1 ∧
      (generate_report_html mdToHtml fmtStats e company_name
        url Trace.start).2.llmCalls = 1 := by
    intro hc h1 h2
    rw [hT, if_neg h1, if_neg (by simp [h2]), gci_trace, hc]
    exact ⟨rfl, rfl⟩
  have hpb : (generate_report_with_download mdToHtml fmtStats e pdfConv
      company_name url Trace.start).2.promptBuilds =
      (generate_report_html mdToHtml fmtStats e company_name
        url Trace.start).2.promptBuilds := by
    rcases hR2 with h | h <;> rw [h]
  have hlc : (generate_report_with_download mdToHtml fmtStats e pdfConv
      company_name url Trace.start).2.llmCalls =
      (generate_report_html mdToHtml fmtStats e company_name
        url Trace.start).2.llmCalls := by
    rcases hR2 with h | h <;> rw [h]
  have hin : (generate_report_with_download mdToHtml fmtStats e pdfConv
      company_name url Trace.start).2.llmInputs =
      (generate_report_html mdToHtml fmtStats e company_name
        url Trace.start).2.llmInputs := by
    rcases hR2 with h | h <;> rw [h]
  have hpdf : (generate_report_with_download mdToHtml fmtStats e pdfConv
      company_name url Trace.start).2.pdfSources =
      (generate_report_html mdToHtml fmtStats e company_name
        url Trace.start).2.pdfSources ∨
      (generate_report_with_download mdToHtml fmtStats e pdfConv
      company_name url Trace.start).2.pdfSources =
      (generate_report_html mdToHtml fmtStats e company_name
        url Trace.start).2.pdfSources ++
      [(generate_report_html mdToHtml fmtStats e company_name
        url Trace.start).1.1] := by
    rcases hR2 with h | h
    · exact Or.inl (by rw [h])
    · exact Or.inr (by rw [h])
  have hlast : e.cachedReport = none → ¬(company_name = "" ∨ url = "") →
      (pyStartsWith url "http://" || pyStartsWith url "https://") = true →
      (generate_report_with_download mdToHtml fmtStats e pdfConv company_name
        url Trace.start).2.promptBuilds = 1 ∧
      (generate_report_with_download mdToHtml fmtStats e pdfConv company_name
        url Trace.start).2.llmCalls = 1 := by
    intro hc h1 h2
    exact ⟨by rw [hpb]; exact (hTexact hc h1 h2).1,
           by rw [hlc]; exact (hTexact hc h1 h2).2⟩
  rcases hTfields with ⟨hp, hl, hi, hs⟩ | ⟨hp, hl, hi, hs⟩
  · refine ⟨by omega, by omega, ?_, ?_, ?_, hlast⟩
    · rw [hin, hi, hlc, hl]
      rfl
    · intro s hsmem
      rcases hpdf with h | h
      · rw [h, hs] at hsmem
        exact absurd hsmem (by simp)
      · rw [h, hs] at hsmem
        rw [List.nil_append, List.mem_singleton] at hsmem
        rw [hsmem, hR1]
    · rcases hpdf with h | h
      · rw [h, hs]
        simp
      · rw [h, hs]
        simp
  · refine ⟨by omega, by omega, ?_, ?_, ?_, hlast⟩
    · rw [hin, hi, hlc, hl]
      rfl
    · intro s hsmem
      rcases hpdf with h | h
      · rw [h, hs] at hsmem
        exact absurd hsmem (by simp)
      · rw [h, hs] at hsmem
        rw [List.nil_append, List.mem_singleton] at hsmem
        rw [hsmem, hR1]
    · rcases hpdf with h | h
      · rw [h, hs]
        simp
      · rw [h, hs]
        simp


/-- Concrete environment for the C1 witness: uncached report, stub
prompt builder, always-succeeding summarizer. -/
def envW : IntelEnv :=
  { cachedReport := none,
    buildPrompt := fun _ => "PROMPT",
    llm := fun _ _ => Except.ok ⟨"report text", ⟨10, 5, 15⟩⟩,
    elapsed := 1 }

theorem C1_single_generation_witness :
    (generate_report_with_download (fun str => str) (fun _ => "") envW
      (fun _ => Except.ok "report.pdf") "Acme" "https://x.com"
      Trace.start).2.promptBuilds = 1 ∧
    (generate_report_with_download (fun str => str) (fun _ => "") envW
      (fun _ => Except.ok "report.pdf") "Acme" "https://x.com"
      Trace.start).2.llmCalls = 1 ∧
    (generate_report_with_download (fun str => str) (fun _ => "") envW
      (fun _ => Except.ok "report.pdf") "Acme" "https://x.com"
      Trace.start).2.llmInputs =
      List.replicate (generate_report_with_download (fun str => str)
        (fun _ => "") envW (fun _ => Except.ok "report.pdf") "Acme"
        "https://x.com" Trace.start).2.llmCalls (envW.buildPrompt ()) := by
  have h := C1_single_generation (fun str => str) (fun _ => "") envW
    (fun _ => Except.ok "report.pdf") "Acme" "https://x.com"
  have h6 := h.2.2.2.2.2 rfl (by decide) (by decide)
  exact ⟨h6.1, h6.2, h.2.2.1⟩


end CompanyIntel
